import Mathlib

/-!
# The interactive console (`bin/console.go`): completion and dispatch

A shallow embedding of the console front-end: the completion classifier
(`console_completer`, `completeSELECT`, `completeLET`, `completeHELP`), the
suggestion sources, the command dispatcher (`console_executor`, `executeVQL`,
`executeHelp`, `renderArgs`) and the session state (`load_state`,
`save_state`).

Modelling conventions.

* A Go `string` is a `List Char` (`GoString`): a sequence of code points, as for
  every well-formed UTF-8 string.  Byte-wise comparison of UTF-8 strings is
  comparison of their code point sequences, which is what `strLess` computes.
* `strings.ToUpper` maps every rune through `unicode.ToUpper`.  The rune map is
  the parameter `up : Char → Char` of every definition that changes case, so
  the theorems hold for each such map; concrete evaluations use `Char.toUpper`,
  which agrees with `unicode.ToUpper` on ASCII text.
* The evaluator, the scope and the artifact repository are external: they
  appear as the records `Scope`, `Config` and as the function `Parse`.
* Output is a trace of `Effect`s, in program order.  `Sprintf` gives the text
  a `fmt.Printf` call writes, for the formats the console uses.
* The two regular expressions of `renderArgs` are written out as the matchers
  `FindDocSubmatch` and `FindRequired`, with the leftmost-first rule of Go.
* The history file is its content, `none` when the file does not exist;
  `Marshal` and `Unmarshal` are `encoding/json` on the record `consoleState`.
-/

namespace Console

/-- A Go string, as its sequence of code points. -/
abbrev GoString := List Char

/-! ## Library functions used by the console -/

/-- The function `strings.ToUpper`: the rune map `up` applied to every rune. -/
def ToUpper (up : Char → Char) (s : GoString) : GoString :=
  s.map up

/-- The function `strings.ToLower` for a rune map `lo`. -/
def ToLower (lo : Char → Char) (s : GoString) : GoString :=
  s.map lo

/-- The function `strings.HasPrefix(s, p)`. -/
def HasPrefix (s p : GoString) : Bool :=
  p.isPrefixOf s

/-- The function `strings.HasSuffix(s, p)`. -/
def HasSuffix (s p : GoString) : Bool :=
  p.reverse.isPrefixOf s.reverse

/-- The function `strings.TrimPrefix(s, p)`. -/
def TrimPrefix (s p : GoString) : GoString :=
  if HasPrefix s p then s.drop p.length else s

/-- The call `strings.Split(s, " ")`: the pieces of `s` between single spaces;
a text with `n` spaces has `n + 1` pieces, some of them possibly empty. -/
def Split : GoString → List GoString
  | [] => [[]]
  | c :: cs =>
    if c = ' ' then [] :: Split cs
    else
      match Split cs with
      | [] => [[c]]
      | w :: ws => (c :: w) :: ws

/-- The operator `<` of Go on strings: lexicographic comparison. -/
def strLess : GoString → GoString → Bool
  | [], [] => false
  | [], _ :: _ => true
  | _ :: _, [] => false
  | a :: as, b :: bs =>
    if a.toNat < b.toNat then true
    else if b.toNat < a.toNat then false
    else strLess as bs

/-- A completion proposal, `prompt.Suggest`. -/
structure Suggest where
  Text : GoString
  Description : GoString
  deriving DecidableEq, Repr

/-- The order `columns[i].Text <= columns[j].Text`, the negation of the
comparison function handed to `sort.Slice` with its arguments swapped. -/
def textLE (a b : Suggest) : Prop :=
  strLess b.Text a.Text = false

instance textLE_decidable : DecidableRel textLE :=
  fun a b => inferInstanceAs (Decidable (strLess b.Text a.Text = false))

/-- The call `sort.Slice(columns, func(i, j) bool { return columns[i].Text <
columns[j].Text })`.  Go promises a permutation of the slice that is ordered
by the comparison; it is not stable, so the relative order of entries with
equal `Text` is whatever its algorithm leaves.  The model is an insertion
sort, one of the orders Go may produce.  What is stated of the completion
results below is stated for every such order: that a result is ordered, which
entries it holds, and equations only where the order of equal texts cannot
matter. -/
def sortSlice (columns : List Suggest) : List Suggest :=
  columns.insertionSort textLE

/-- The function `prompt.FilterHasPrefix(completions, sub, ignoreCase)` of
go-prompt: with an empty `sub` the suggestions are returned untouched;
otherwise those whose `Text` starts with `sub` are kept, in order, both sides
upper-cased first when `ignoreCase` is set. -/
def FilterHasPrefix (up : Char → Char) (completions : List Suggest)
    (sub : GoString) (ignoreCase : Bool) : List Suggest :=
  if sub = [] then completions
  else
    let sub1 := if ignoreCase then ToUpper up sub else sub
    completions.filter fun s =>
      HasPrefix (if ignoreCase then ToUpper up s.Text else s.Text) sub1

/-- The method `d.GetWordBeforeCursor()` of go-prompt for a document whose
text before the cursor is `t`: the text after the last space of `t`, all of
`t` when it has no space. -/
def GetWordBeforeCursor (t : GoString) : GoString :=
  (t.reverse.takeWhile fun c => c ≠ ' ').reverse

/-! ## The external catalogs -/

/-- An entry of `descriptions.Functions`. -/
structure FunctionInfo where
  Name : GoString
  Doc : GoString
  ArgType : GoString
  deriving DecidableEq, Repr

/-- An entry of `descriptions.Plugins`. -/
structure PluginInfo where
  Name : GoString
  Doc : GoString
  ArgType : GoString
  deriving DecidableEq, Repr

/-- A field of a type description: `vfilter.TypeReference`. -/
structure TypeReference where
  Target : GoString
  Repeated : Bool
  Tag : GoString
  deriving DecidableEq, Repr

/-- The record `vfilter.TypeDescription`: the fields in the order in which the
`range` over the field map visits them. -/
structure TypeDescription where
  Fields : List (GoString × TypeReference)
  deriving DecidableEq, Repr

/-- The scope as the console reads it: `scope.Keys()`, the two lists of
`scope.Describe(type_map)` and the lookup `type_map.Get(scope, name)`. -/
structure Scope where
  Keys : List GoString
  Functions : List FunctionInfo
  Plugins : List PluginInfo
  TypeMapGet : GoString → Option TypeDescription

/-- An artifact of the repository, as far as the console reads it. -/
structure Artifact where
  Description : GoString
  Raw : GoString
  deriving DecidableEq, Repr

/-- The artifact repository: `repository.List()` and `repository.Get(name)`. -/
structure Repository where
  List : List GoString
  Get : GoString → Option Artifact

/-- The configuration object as the console uses it: the result of
`artifacts.GetGlobalRepository(config_obj)`, `none` when it returns an error. -/
structure Config where
  GetGlobalRepository : Option Repository

/-! ## The completion classifier -/

/-- The table `toplevel_commands`. -/
def toplevel_commands : List Suggest :=
  [ ⟨"SELECT".toList, "Start a query".toList⟩,
    ⟨"LET".toList, "Assign a stored query".toList⟩,
    ⟨"HELP".toList, "Show help about plugins, functions etc".toList⟩ ]

/-- The function `NoCaseInString`: is some element of `hay` equal to `needle`
when both are upper-cased. -/
def NoCaseInString (up : Char → Char) (hay : List GoString) (needle : GoString) : Bool :=
  let needle1 := ToUpper up needle
  hay.any fun x => decide (ToUpper up x = needle1)

/-- The function `suggestVars`: the keys of the scope that start with neither
`$` nor `_`, each as a suggestion without description. -/
def suggestVars (scope : Scope) : List Suggest :=
  (scope.Keys.filter fun member =>
    !(HasPrefix member "$".toList) && !(HasPrefix member "_".toList)).map
    fun member => ⟨member, []⟩

/-- The function `suggestPlugins`: the plugins of the scope, then the artifacts
of the repository under the name `Artifact.<name>`; nothing is added for the
artifacts when the repository cannot be obtained. -/
def suggestPlugins (config_obj : Config) (scope : Scope) (add_bracket : Bool) :
    List Suggest :=
  let result : List Suggest := scope.Plugins.map fun plugin =>
    ⟨if add_bracket then plugin.Name ++ "(".toList else plugin.Name, plugin.Doc⟩
  match config_obj.GetGlobalRepository with
  | none => result
  | some repository =>
    result ++ repository.List.filterMap fun name =>
      match repository.Get name with
      | some artifact =>
        some ⟨"Artifact.".toList ++ (if add_bracket then name ++ "(".toList else name),
          artifact.Description⟩
      | none => none

/-- The function `suggestFunctions`. -/
def suggestFunctions (scope : Scope) (add_bracket : Bool) : List Suggest :=
  scope.Functions.map fun function =>
    ⟨if add_bracket then function.Name ++ "(".toList else function.Name, function.Doc⟩

/-- The function `suggestLimit`. -/
def suggestLimit : List Suggest :=
  [ ⟨"LIMIT".toList, "Limit to this many rows".toList⟩,
    ⟨"ORDER BY".toList, "order results by a column".toList⟩ ]

/-- The function `completeHELP`. -/
def completeHELP (up : Char → Char) (config_obj : Config) (scope : Scope)
    (_args : List GoString) (current_word : GoString) : List Suggest :=
  let columns := suggestFunctions scope false ++ suggestPlugins config_obj scope false
  FilterHasPrefix up (sortSlice columns) current_word true

/-- The literal `{Text: "FROM", Description: "Select from plugin"}` of
`completeSELECT`. -/
def suggestFROM : Suggest :=
  ⟨"FROM".toList, "Select from plugin".toList⟩

/-- The literal `{Text: "*", Description: "All columns"}` of `completeSELECT`. -/
def suggestStar : Suggest :=
  ⟨"*".toList, "All columns".toList⟩

/-- The literal `{Text: "WHERE", Description: "Condition to filter the result
set"}` of `completeSELECT`. -/
def suggestWHERE : Suggest :=
  ⟨"WHERE".toList, "Condition to filter the result set".toList⟩

/-- The first loop of `completeSELECT`: the pair `(last_word, previous_word)`
after the tokens `args` have been visited, starting from the pair `p`. -/
def lastWords (args : List GoString) (p : GoString × GoString) : GoString × GoString :=
  args.foldl (fun q w => if w ≠ [] then (w, q.1) else q) p

/-- The candidate list that `completeSELECT` builds before sorting. -/
def selectColumns (up : Char → Char) (config_obj : Config) (scope : Scope)
    (args : List GoString) (current_word : GoString) : List Suggest :=
  let last_word := (lastWords args ([], [])).1
  let previous_word := (lastWords args ([], [])).2
  if !NoCaseInString up args "FROM".toList then
    [suggestFROM] ++
      (if ToUpper up last_word = "SELECT".toList then
        [suggestStar] ++ suggestVars scope ++
          suggestFunctions scope true
      else if HasSuffix last_word ",".toList || decide (current_word ≠ []) then
        suggestVars scope ++ suggestFunctions scope true
      else [])
  else if decide (ToUpper up last_word = "FROM".toList) ||
      (decide (current_word ≠ []) &&
        decide (ToUpper up previous_word = "FROM".toList)) then
    suggestVars scope ++ suggestPlugins config_obj scope true
  else if !NoCaseInString up args "WHERE".toList then
    [suggestWHERE] ++ suggestLimit
  else
    suggestLimit ++ suggestVars scope ++ suggestFunctions scope true

/-- The function `completeSELECT`. -/
def completeSELECT (up : Char → Char) (config_obj : Config) (scope : Scope)
    (args : List GoString) (current_word : GoString) : List Suggest :=
  FilterHasPrefix up (sortSlice (selectColumns up config_obj scope args current_word))
    current_word true

/-- The function `completeLET`. -/
def completeLET (up : Char → Char) (config_obj : Config) (scope : Scope)
    (args : List GoString) (current_word : GoString) : List Suggest :=
  if args.length = 3 then
    FilterHasPrefix up (sortSlice
      [ ⟨"=".toList, "Store query in scope".toList⟩,
        ⟨"<=".toList, "Materialize query in scope".toList⟩ ]) current_word true
  else if args.length = 4 then
    FilterHasPrefix up (sortSlice [⟨"SELECT".toList, "Start Query".toList⟩])
      current_word true
  else if 4 < args.length ∧ ToUpper up (args.getD 3 []) = "SELECT".toList then
    completeSELECT up config_obj scope (args.drop 3) current_word
  else
    FilterHasPrefix up (sortSlice []) current_word true

/-- The function `console_completer`, for a document whose text before the
cursor is `t`. -/
def console_completer (up : Char → Char) (config_obj : Config) (scope : Scope)
    (t : GoString) : List Suggest :=
  if t = [] then []
  else
    let args := Split t
    if args.length ≤ 1 then
      FilterHasPrefix up toplevel_commands (args.headD []) true
    else
      let current_word := GetWordBeforeCursor t
      let keyword := ToUpper up (args.headD [])
      if keyword = "SELECT".toList then
        completeSELECT up config_obj scope args current_word
      else if keyword = "LET".toList then
        completeLET up config_obj scope args current_word
      else if keyword = "HELP".toList then
        completeHELP up config_obj scope args current_word
      else []

/-! ## The command dispatcher -/

/-- The record `consoleState`. -/
structure consoleState where
  History : List GoString
  deriving DecidableEq, Repr

/-- What a dispatched line does besides changing the state, in program order.
`Printf` is a call of `fmt.Printf` with its format and its `%v` arguments;
`renderArgs` is the call of `renderArgs` on a type description; the three
output effects are the calls that evaluate and render the parsed statement;
`install_sig_handler` and `cancel` bracket the evaluation. -/
inductive Effect (VQL : Type) where
  | Printf (format : GoString) (args : List GoString)
  | renderArgs (type_desc : TypeDescription)
  | install_sig_handler
  | evalQueryToTable (vql : VQL)
  | outputJSON (vql : VQL)
  | outputCSV (vql : VQL)
  | cancel
  deriving DecidableEq

/-- The loop of `executeHelp` over the tokens of the line. -/
def helpLoop {VQL : Type} (up : Char → Char) (config_obj : Config) (scope : Scope) :
    List GoString → List (Effect VQL)
  | [] => [Effect.Printf "Unknown function or plugin.\n".toList []]
  | arg :: rest =>
    if arg = [] ∨ ToUpper up arg = "HELP".toList then
      helpLoop up config_obj scope rest
    else if HasPrefix arg "Artifact.".toList then
      match config_obj.GetGlobalRepository with
      | none => []
      | some repository =>
        match repository.Get (TrimPrefix arg "Artifact.".toList) with
        | none => [Effect.Printf "Unknown artifact\n".toList []]
        | some artifact => [Effect.Printf artifact.Raw []]
    else
      match scope.Functions.find? fun function => decide (function.Name = arg) with
      | some function =>
        Effect.Printf "Function %v:\n%v\n\n".toList [function.Name, function.Doc] ::
          (match scope.TypeMapGet function.ArgType with
          | some arg_type => [Effect.renderArgs arg_type]
          | none => [])
      | none =>
        match scope.Plugins.find? fun plugin => decide (plugin.Name = arg) with
        | some plugin =>
          Effect.Printf "VQL Plugin %v:\n%v\n\n".toList [plugin.Name, plugin.Doc] ::
            (match scope.TypeMapGet plugin.ArgType with
            | some arg_type => [Effect.renderArgs arg_type]
            | none => [])
        | none => helpLoop up config_obj scope rest

/-- The function `executeHelp`: the line is appended to the history, then the
tokens are looked up. -/
def executeHelp {VQL : Type} (up : Char → Char) (config_obj : Config) (scope : Scope)
    (state : consoleState) (t : GoString) : consoleState × List (Effect VQL) :=
  (⟨state.History ++ [t]⟩, helpLoop up config_obj scope (Split t))

/-- The function `executeVQL`.  `Parse` is `vfilter.Parse`, returning the
parsed statement or the error; `console_format` is the value of the flag
`--format`. -/
def executeVQL {VQL : Type} (Parse : GoString → Except GoString VQL)
    (console_format : GoString) (state : consoleState) (t : GoString) :
    consoleState × List (Effect VQL) :=
  match Parse t with
  | Except.error err => (state, [Effect.Printf "Error: %v\n".toList [err]])
  | Except.ok vql =>
    (⟨state.History ++ [t]⟩,
      [Effect.install_sig_handler] ++
        (if console_format = "text".toList then [Effect.evalQueryToTable vql]
        else if console_format = "json".toList then [Effect.outputJSON vql]
        else if console_format = "csv".toList then [Effect.outputCSV vql]
        else []) ++
        [Effect.cancel])

/-- The function `console_executor`. -/
def console_executor {VQL : Type} (up : Char → Char)
    (Parse : GoString → Except GoString VQL) (console_format : GoString)
    (config_obj : Config) (scope : Scope) (state : consoleState) (t : GoString) :
    consoleState × List (Effect VQL) :=
  if t = [] then (state, [])
  else
    let keyword := ToUpper up ((Split t).headD [])
    if keyword = "SELECT".toList ∨ keyword = "LET".toList then
      executeVQL Parse console_format state t
    else if keyword = "HELP".toList then
      executeHelp up config_obj scope state t
    else (state, [])

/-! ## The parse position, in the words of the specification -/

/-- The tokens of `args` that are not empty, in order. -/
def nonEmptyTokens (args : List GoString) : List GoString :=
  args.filter fun w => decide (w ≠ [])

/-- In the words of the specification, `lastNonEmptyToken`: the last token of
`args` that is not empty, the empty string when there is none. -/
def lastNonEmptyToken (args : List GoString) : GoString :=
  (nonEmptyTokens args).getLast?.getD []

/-- In the words of the specification, `previousNonEmptyToken`: the non-empty
token before the last non-empty one, the empty string when there is none. -/
def previousNonEmptyToken (args : List GoString) : GoString :=
  (nonEmptyTokens args).dropLast.getLast?.getD []

/-- In the words of the specification, the synthetic plugin names: one
suggestion `Artifact.<name>` followed by `suffix` for every name the repository
lists and holds, with the description of the artifact; none when there is no
repository. -/
def artifactSuggestions (config_obj : Config) (suffix : GoString) : List Suggest :=
  match config_obj.GetGlobalRepository with
  | none => []
  | some repository =>
    repository.List.filterMap fun name =>
      (repository.Get name).map fun artifact =>
        ⟨"Artifact.".toList ++ name ++ suffix, artifact.Description⟩

/-! ## Properties of the rune maps -/

/-- What the console needs of `unicode.ToUpper`: the upper-case ASCII letters
`A` to `Z` are mapped to themselves. -/
def FixesUpperASCII (up : Char → Char) : Prop :=
  ∀ c : Char, 65 ≤ c.toNat → c.toNat ≤ 90 → up c = c

/-- The rune maps `up` and `lo` identify the same runes: two runes with the
same upper-case form have the same lower-case form.  This holds for the case
maps of ASCII, `Char.toUpper` and `Char.toLower`; it does not hold for the
maps of Unicode, where the long s, U+017F, and `s` share the upper-case form
`S` and not the lower-case form. -/
def FoldsTogether (up lo : Char → Char) : Prop :=
  ∀ a b : Char, up a = up b → lo a = lo b

/-! ## The argument table of the help output -/

/-- The match of the expression `doc=(.[^,]+)` that starts at the first
character of `s`, as its submatch: after `doc=` one character other than a
line feed (the `.`), then the longest run of at least one character other than
a comma. -/
def docMatchAt (s : GoString) : Option GoString :=
  if HasPrefix s "doc=".toList then
    match s.drop 4 with
    | [] => none
    | c :: rest =>
      if c ≠ '\n' ∧ (rest.takeWhile fun x => decide (x ≠ ',')) ≠ [] then
        some (c :: rest.takeWhile fun x => decide (x ≠ ','))
      else none
  else none

/-- The call `re.FindStringSubmatch(tag)` for `re = doc=(.[^,]+)`, as the
submatch `matches[1]` of the leftmost match; `none` when nothing matches. -/
def FindDocSubmatch : GoString → Option GoString
  | [] => none
  | c :: cs =>
    match docMatchAt (c :: cs) with
    | some d => some d
    | none => FindDocSubmatch cs

/-- The match of `required(,|$)` that starts at the first character of `s`:
the word, then a comma or the end of the text. -/
def requiredMatchAt (s : GoString) : Option GoString :=
  if HasPrefix s "required".toList then
    match s.drop 8 with
    | [] => some "required".toList
    | c :: _ => if c = ',' then some "required,".toList else none
  else none

/-- The leftmost match of `,required(,|$)` in `s`, the empty string when there
is none: the alternative `,` of the group `(^|,)` at any position. -/
def scanRequired : GoString → GoString
  | [] => []
  | c :: cs =>
    if c = ',' then
      match requiredMatchAt cs with
      | some m => ',' :: m
      | none => scanRequired cs
    else scanRequired cs

/-- The call `required_re.FindString(tag)` for `required_re =
(^|,)required(,|$)`: the text of the leftmost match, the empty string when
nothing matches.  The alternative `^` applies at the start of the tag only. -/
def FindRequired (tag : GoString) : GoString :=
  match requiredMatchAt tag with
  | some m => m
  | none => scanRequired tag

/-- The pieces of `s` between commas, as `strings.Split(s, ",")` returns them. -/
def SplitComma : GoString → List GoString
  | [] => [[]]
  | c :: cs =>
    if c = ',' then [] :: SplitComma cs
    else
      match SplitComma cs with
      | [] => [[c]]
      | w :: ws => (c :: w) :: ws

/-- The doc column of a field: `matches[1]` when the expression matches, the
empty string otherwise. -/
def docColumn (tag : GoString) : GoString :=
  match FindDocSubmatch tag with
  | some d => d
  | none => []

/-- The required column of a field. -/
def requiredColumn (tag : GoString) : GoString :=
  if FindRequired tag ≠ [] then "required".toList else []

/-- The function `renderArgs`: the heading, then one row for each field. -/
def renderArgs {VQL : Type} (type_desc : TypeDescription) : List (Effect VQL) :=
  Effect.Printf "Args:\n".toList [] ::
    type_desc.Fields.map fun fd =>
      Effect.Printf "  %v: %v (%v) %v %v\n".toList
        [fd.1, docColumn fd.2.Tag, fd.2.Target,
          if fd.2.Repeated then "repeated".toList else [], requiredColumn fd.2.Tag]

/-- In the words of the claim on the doc column: the value that follows the
first `doc=` of the tag, up to the next comma or the end of the tag; the empty
string when the tag holds no `doc=`. -/
def docValue : GoString → GoString
  | [] => []
  | c :: cs =>
    if HasPrefix (c :: cs) "doc=".toList then
      ((c :: cs).drop 4).takeWhile fun x => decide (x ≠ ',')
    else docValue cs

/-! ## What `fmt.Printf` writes -/

/-- The text `fmt.Printf(format, args...)` writes for string operands, for the
formats whose only verbs are `%v` and `%%`: `%%` writes a percent sign and
takes no operand, `%v` writes the next operand, or `%!v(MISSING)` when none is
left, and a `%` that ends the format writes `%!(NOVERB)`.  The result is `none`
for every other format and when operands are left over. -/
def Sprintf : GoString → List GoString → Option GoString
  | [], [] => some []
  | [], _ :: _ => none
  | [c], args =>
    if c = '%' then
      match args with
      | [] => some "%!(NOVERB)".toList
      | _ :: _ => none
    else
      match args with
      | [] => some [c]
      | _ :: _ => none
  | c :: v :: rest, args =>
    if c = '%' then
      if v = '%' then (Sprintf rest args).map fun out => '%' :: out
      else if v = 'v' then
        match args with
        | a :: more => (Sprintf rest more).map fun out => a ++ out
        | [] => (Sprintf rest []).map fun out => "%!v(MISSING)".toList ++ out
      else none
    else (Sprintf (v :: rest) args).map fun out => c :: out

/-- The trace with every `renderArgs` effect replaced by the calls of
`fmt.Printf` that `renderArgs` makes. -/
def expandRenderArgs {VQL : Type} (effects : List (Effect VQL)) : List (Effect VQL) :=
  effects.flatMap fun e =>
    match e with
    | Effect.renderArgs type_desc => renderArgs type_desc
    | other => [other]

/-- The text the `Printf` calls of a trace write, in order; `none` when a call
is outside the formats of `Sprintf` or the trace holds another effect. -/
def printedCalls {VQL : Type} : List (Effect VQL) → Option GoString
  | [] => some []
  | Effect.Printf format args :: rest =>
    match Sprintf format args, printedCalls rest with
    | some a, some b => some (a ++ b)
    | _, _ => none
  | _ :: _ => none

/-- The text written to the standard output by a trace of help effects. -/
def printed {VQL : Type} (effects : List (Effect VQL)) : Option GoString :=
  printedCalls (expandRenderArgs effects)

/-! ## Help resolution, in the words of the specification -/

/-- A token the help loop skips: the empty token and the keyword HELP in any
letter-case. -/
def skipsToken (up : Char → Char) (arg : GoString) : Bool :=
  decide (arg = [] ∨ ToUpper up arg = "HELP".toList)

/-- A token at which the help loop stops: it is not skipped, and it has the
form `Artifact.<name>` or is the exact name of a function or of a plugin. -/
def resolvesToken (up : Char → Char) (scope : Scope) (arg : GoString) : Bool :=
  !skipsToken up arg &&
    (HasPrefix arg "Artifact.".toList ||
      scope.Functions.any (fun function => decide (function.Name = arg)) ||
      scope.Plugins.any (fun plugin => decide (plugin.Name = arg)))

/-- The first token of `args` that is not skipped, if there is one. -/
def firstNonSkipped (up : Char → Char) (args : List GoString) : Option GoString :=
  args.find? fun arg => !skipsToken up arg

/-! ## The loop of `suggestVars` -/

/-- The loop of `suggestVars` as written: `result` grows by one suggestion for
every member that passes the two tests. -/
def suggestVarsLoop : List GoString → List Suggest → List Suggest
  | [], result => result
  | member :: rest, result =>
    if HasPrefix member "$".toList then suggestVarsLoop rest result
    else if HasPrefix member "_".toList then suggestVarsLoop rest result
    else suggestVarsLoop rest (result ++ [⟨member, []⟩])

/-! ## The history file -/

/-- A digit of the table `0123456789abcdef` of `encoding/json`. -/
def hexDigit (n : Nat) : Char :=
  "0123456789abcdef".toList.getD n '0'

/-- How `json.Marshal` writes one character of a string: a quote and a
backslash get a backslash in front; line feed, carriage return and tab are
written `\n`, `\r`, `\t`; the other control characters, the characters `<`,
`>`, `&` and the separators U+2028 and U+2029 are written `\u` and four
digits; every other character is written as it is.  Releases of Go that write
backspace and form feed as `\b` and `\f` differ on these two characters. -/
def jsonEscape (c : Char) : GoString :=
  if c = '"' then ['\\', '"']
  else if c = '\\' then ['\\', '\\']
  else if c = '\n' then ['\\', 'n']
  else if c = '\r' then ['\\', 'r']
  else if c = '\t' then ['\\', 't']
  else if c.toNat < 32 ∨ c = '<' ∨ c = '>' ∨ c = '&' ∨ c.toNat = 8232 ∨ c.toNat = 8233 then
    ['\\', 'u', hexDigit (c.toNat / 4096 % 16), hexDigit (c.toNat / 256 % 16),
      hexDigit (c.toNat / 16 % 16), hexDigit (c.toNat % 16)]
  else [c]

/-- A string as `json.Marshal` writes it. -/
def jsonString (s : GoString) : GoString :=
  '"' :: (s.flatMap jsonEscape ++ ['"'])

/-- The elements of a non-empty array as `json.Marshal` writes them, with
commas between them. -/
def jsonElements : List GoString → GoString
  | [] => []
  | [s] => jsonString s
  | s :: t :: rest => jsonString s ++ ',' :: jsonElements (t :: rest)

/-- The call `json.Marshal(state)`: an object with the one key `History`, whose
value is `null` for the history without entries (the nil slice of a fresh
state) and the array of the entries otherwise.  The record `consoleState` of
the model does not tell the nil slice from the empty slice that `load_state`
returns for a file holding `[]`, which Go writes back as `[]`; for a history
with an entry the text is the one Go writes. -/
def Marshal (state : consoleState) : GoString :=
  "\x7b\"History\":".toList ++
    (match state.History with
    | [] => "null".toList
    | s :: rest => '[' :: (jsonElements (s :: rest) ++ [']'])) ++
    "\x7d".toList

/-- The value of a hexadecimal digit. -/
def hexValue (c : Char) : Option Nat :=
  if 48 ≤ c.toNat ∧ c.toNat ≤ 57 then some (c.toNat - 48)
  else if 97 ≤ c.toNat ∧ c.toNat ≤ 102 then some (c.toNat - 87)
  else if 65 ≤ c.toNat ∧ c.toNat ≤ 70 then some (c.toNat - 55)
  else none

/-- The character a one-letter escape of JSON stands for. -/
def jsonUnescape (e : Char) : Option Char :=
  if e = '"' then some '"'
  else if e = '\\' then some '\\'
  else if e = '/' then some '/'
  else if e = 'n' then some '\n'
  else if e = 'r' then some '\r'
  else if e = 't' then some '\t'
  else if e = 'b' then some (Char.ofNat 8)
  else if e = 'f' then some (Char.ofNat 12)
  else none

/-- A JSON string read from the character after its opening quote: the
decoded string and the text after the closing quote.  `none` for a text that
is no string and for the `\u` escapes of surrogates, which are left out. -/
def parseStringBody : GoString → Option (GoString × GoString)
  | [] => none
  | c :: rest =>
    if c = '"' then some ([], rest)
    else if c = '\\' then
      match rest with
      | [] => none
      | e :: rest2 =>
        if e = 'u' then
          match rest2 with
          | a :: b :: c2 :: d :: rest3 =>
            match hexValue a, hexValue b, hexValue c2, hexValue d with
            | some x, some y, some z, some w =>
              if 55296 ≤ ((x * 16 + y) * 16 + z) * 16 + w ∧
                  ((x * 16 + y) * 16 + z) * 16 + w < 57344 then none
              else
                (parseStringBody rest3).map fun r =>
                  (Char.ofNat (((x * 16 + y) * 16 + z) * 16 + w) :: r.1, r.2)
            | _, _, _, _ => none
          | _ => none
        else
          match jsonUnescape e with
          | some x => (parseStringBody rest2).map fun r => (x :: r.1, r.2)
          | none => none
    else if c.toNat < 32 then none
    else (parseStringBody rest).map fun r => (c :: r.1, r.2)

/-- The strings of an array read from its first element on: each a string,
followed by a comma and more elements or by the closing bracket.  The first
argument bounds the number of elements. -/
def parseStrings : Nat → GoString → Option (List GoString × GoString)
  | 0, _ => none
  | _ + 1, [] => none
  | fuel + 1, c :: rest =>
    if c = '"' then
      match parseStringBody rest with
      | some (str, d :: rest2) =>
        if d = ',' then (parseStrings fuel rest2).map fun r => (str :: r.1, r.2)
        else if d = ']' then some ([str], rest2)
        else none
      | _ => none
    else none

/-- A state read from a text in the form `Marshal` writes, without blanks, and
the text that follows it. -/
def parseState (data : GoString) : Option (consoleState × GoString) :=
  if HasPrefix data "\x7b\"History\":".toList then
    if HasPrefix (data.drop 11) "null\x7d".toList then some (⟨[]⟩, data.drop 16)
    else if HasPrefix (data.drop 11) "[]\x7d".toList then some (⟨[]⟩, data.drop 14)
    else
      match data.drop 11 with
      | [] => none
      | c :: body =>
        if c = '[' then
          match parseStrings body.length body with
          | some (entries, d :: rest) =>
            if d = '\x7d' then some (⟨entries⟩, rest) else none
          | _ => none
        else none
  else none

/-- The outcome of `json.Unmarshal(data, &result)`, as far as it is modelled. -/
inductive Decoded where
  | value (state : consoleState)
  | syntaxError
  | unmodelled
  deriving DecidableEq, Repr

/-- A blank of JSON. -/
def isJsonSpace (c : Char) : Bool :=
  c = ' ' || c = '\t' || c = '\n' || c = '\r'

/-- The call `json.Unmarshal(data, &result)`.  The empty text is a syntax
error; a text that starts with a state in the form `Marshal` writes holds that
state when only blanks follow it and is a syntax error when anything else
follows the top-level value; every other text is left out of the model. -/
def Unmarshal (data : GoString) : Decoded :=
  if data = [] then Decoded.syntaxError
  else
    match parseState data with
    | some (state, rest) =>
      if rest.all isJsonSpace then Decoded.value state else Decoded.syntaxError
    | none => Decoded.unmodelled

/-- The function `save_state`, on the content of the history file (`none` for
a file that does not exist): the file is opened for writing, created when
absent and not truncated, and the serialised state is written at its start, so
what an older, longer content held beyond the written text stays in place.
The file is written in bytes and the model counts characters: the two agree
when the old content and the written text are ASCII, and only then is the
model the file the code leaves.  Opening an existing file is taken to
succeed. -/
def save_state (file : Option GoString) (state : consoleState) : Option GoString :=
  some (Marshal state ++ (file.getD []).drop (Marshal state).length)

/-- The function `load_state`, on the content of the history file: the empty
state when the file does not exist or `json.Unmarshal` reports an error (the
error is ignored and `result` is left as it was), the decoded state
otherwise; `none` for a content outside the model of `Unmarshal`. -/
def load_state (file : Option GoString) : Option consoleState :=
  match file with
  | none => some ⟨[]⟩
  | some data =>
    match Unmarshal data with
    | Decoded.value state => some state
    | Decoded.syntaxError => some ⟨[]⟩
    | Decoded.unmodelled => none

/-! ## Sample data for concrete evaluations -/

/-- A small scope: two visible variables, two hidden ones, one function and
one plugin. -/
def sampleScope : Scope :=
  { Keys := ["config".toList, "$uploader".toList, "_hidden".toList, "env".toList]
    Functions := [⟨"format".toList, "Format a string".toList, "FormatArgs".toList⟩]
    Plugins := [⟨"glob".toList, "Find files".toList, "GlobArgs".toList⟩]
    TypeMapGet := fun _ => none }

/-- A repository with one artifact. -/
def sampleConfig : Config :=
  { GetGlobalRepository := some
      { List := ["Linux.Sys".toList]
        Get := fun name =>
          if name = "Linux.Sys".toList then
            some ⟨"System facts".toList, "name: Linux.Sys".toList⟩
          else none } }

/-- The argument type of the sample plugin: three fields with their tags. -/
def sampleGlobArgs : TypeDescription :=
  { Fields :=
      [ ("globs".toList, ⟨"string".toList, true, "required,doc=One or more glob patterns".toList⟩),
        ("accessor".toList, ⟨"string".toList, false, "doc=x".toList⟩),
        ("root".toList, ⟨"string".toList, false, "notrequired".toList⟩) ] }

/-- A scope with a function and a plugin of the same name, and a type map that
knows the argument type of the plugin `glob`. -/
def sampleHelpScope : Scope :=
  { Keys := ["config".toList]
    Functions :=
      [ ⟨"format".toList, "Format a string".toList, "FormatArgs".toList⟩,
        ⟨"count".toList, "Count rows".toList, "CountArgs".toList⟩ ]
    Plugins :=
      [ ⟨"glob".toList, "Find files".toList, "GlobArgs".toList⟩,
        ⟨"count".toList, "A plugin called count".toList, "CountArgs".toList⟩ ]
    TypeMapGet := fun name =>
      if name = "GlobArgs".toList then some sampleGlobArgs else none }

/-- A repository with one artifact, whose source holds a `%v`. -/
def samplePercentConfig : Config :=
  { GetGlobalRepository := some
      { List := ["Demo".toList]
        Get := fun name =>
          if name = "Demo".toList then
            some ⟨"A demo".toList,
              "LET x = format(format='%v rows', args=n)\n".toList⟩
          else none } }

/-- The rune map `unicode.ToUpper` on ASCII and on the long s, U+017F, whose
upper-case form is `S`; every other rune is left as it is.  The lower-case
form of the long s is the long s itself, as `Char.toLower` has it. -/
def upperWithLongS (c : Char) : Char :=
  if c = Char.ofNat 383 then 'S' else c.toUpper

/-- A parser that accepts exactly the lines that contain the token `FROM`. -/
def sampleParse (t : GoString) : Except GoString GoString :=
  if (Split t).any (fun w => decide (w = "FROM".toList)) then Except.ok t
  else Except.error "parse error".toList

end Console

namespace Console

/-! ## The order on suggestion texts -/

theorem strLess_irrefl (a : GoString) : strLess a a = false := by
  induction a with
  | nil => rfl
  | cons c cs ih => simp [strLess, ih]

theorem strLess_asymm : ∀ a b : GoString, strLess a b = true → strLess b a = false
  | [], [], h => by simp [strLess] at h
  | [], _ :: _, _ => by simp [strLess]
  | _ :: _, [], h => by simp [strLess] at h
  | a :: as, b :: bs, h => by
    unfold strLess at h ⊢
    by_cases h1 : a.toNat < b.toNat
    · have h2 : ¬ b.toNat < a.toNat := by omega
      simp [h1, h2]
    · by_cases h2 : b.toNat < a.toNat
      · simp [h1, h2] at h
      · simp only [h1, h2, if_false] at h ⊢
        exact strLess_asymm as bs h

theorem strLess_cotrans : ∀ a b c : GoString, strLess a c = true →
    strLess a b = true ∨ strLess b c = true
  | [], _, [], h => by simp [strLess] at h
  | [], [], _ :: _, _ => by simp [strLess]
  | [], _ :: _, _ :: _, _ => by simp [strLess]
  | _ :: _, _, [], h => by simp [strLess] at h
  | _ :: _, [], _ :: _, _ => by simp [strLess]
  | a :: as, b :: bs, c :: cs, h => by
    unfold strLess at h ⊢
    by_cases hac : a.toNat < c.toNat
    · by_cases hab : a.toNat < b.toNat
      · simp [hab]
      · have hbc : b.toNat < c.toNat := by omega
        simp [hbc]
    · by_cases hca : c.toNat < a.toNat
      · simp [hac, hca] at h
      · simp only [hac, hca, if_false] at h
        by_cases hab : a.toNat < b.toNat
        · simp [hab]
        · by_cases hba : b.toNat < a.toNat
          · have hbc : b.toNat < c.toNat := by omega
            simp [hbc]
          · have hbc : ¬ b.toNat < c.toNat := by omega
            have hcb : ¬ c.toNat < b.toNat := by omega
            simp only [hab, hba, hbc, hcb, if_false]
            exact strLess_cotrans as bs cs h

theorem textLE_total : IsTotal Suggest textLE :=
  ⟨fun a b => by
    unfold textLE
    cases h : strLess b.Text a.Text
    · exact Or.inl rfl
    · exact Or.inr (strLess_asymm _ _ h)⟩

theorem textLE_trans : IsTrans Suggest textLE :=
  ⟨fun a b c hab hbc => by
    unfold textLE at *
    cases h : strLess c.Text a.Text
    · rfl
    · rcases strLess_cotrans _ b.Text _ h with h1 | h1
      · rw [hbc] at h1; cases h1
      · rw [hab] at h1; cases h1⟩

theorem sortSlice_sorted (l : List Suggest) : (sortSlice l).Sorted textLE :=
  haveI := textLE_total
  haveI := textLE_trans
  List.sorted_insertionSort textLE l

theorem sortSlice_perm (l : List Suggest) : (sortSlice l).Perm l :=
  List.perm_insertionSort textLE l

theorem mem_sortSlice {l : List Suggest} {s : Suggest} : s ∈ sortSlice l ↔ s ∈ l :=
  (sortSlice_perm l).mem_iff

/-! ## The filter -/

theorem FilterHasPrefix_sublist (up : Char → Char) (l : List Suggest) (w : GoString)
    (ic : Bool) : (FilterHasPrefix up l w ic).Sublist l := by
  unfold FilterHasPrefix
  split
  · exact List.Sublist.refl l
  · exact List.filter_sublist l

theorem FilterHasPrefix_sorted (up : Char → Char) {l : List Suggest} (w : GoString)
    (ic : Bool) (h : l.Sorted textLE) : (FilterHasPrefix up l w ic).Sorted textLE :=
  List.Pairwise.sublist (FilterHasPrefix_sublist up l w ic) h

theorem FilterHasPrefix_nil (up : Char → Char) (w : GoString) (ic : Bool) :
    FilterHasPrefix up [] w ic = [] := by
  unfold FilterHasPrefix
  split <;> simp

theorem mem_FilterHasPrefix_upper (up : Char → Char) {l : List Suggest} {w : GoString}
    {s : Suggest} (h : s ∈ FilterHasPrefix up l w true) :
    HasPrefix (ToUpper up s.Text) (ToUpper up w) = true := by
  unfold FilterHasPrefix at h
  split at h
  · next hw => subst hw; simp [HasPrefix, ToUpper]
  · simpa using (List.mem_filter.mp h).2

theorem FilterHasPrefix_eq_filter (up : Char → Char) (l : List Suggest) (w : GoString) :
    FilterHasPrefix up l w true =
      l.filter fun s => HasPrefix (ToUpper up s.Text) (ToUpper up w) := by
  unfold FilterHasPrefix
  split
  · next hw =>
    subst hw
    simp [HasPrefix, ToUpper]
  · simp only [if_true]

/-- Sorting and then filtering gives an ordered arrangement of the filtered
candidates. -/
theorem FilterHasPrefix_sortSlice_arrangement (up : Char → Char) (l : List Suggest)
    (w : GoString) :
    (FilterHasPrefix up (sortSlice l) w true).Sorted textLE ∧
      (FilterHasPrefix up (sortSlice l) w true).Perm (FilterHasPrefix up l w true) := by
  refine ⟨FilterHasPrefix_sorted up w true (sortSlice_sorted l), ?_⟩
  rw [FilterHasPrefix_eq_filter, FilterHasPrefix_eq_filter]
  exact (sortSlice_perm l).filter _

/-! ## Splitting on spaces -/

theorem Split_ne_nil : ∀ t : GoString, Split t ≠ []
  | [] => by simp [Split]
  | c :: cs => by
    unfold Split
    split
    · simp
    · split <;> simp

theorem Split_of_no_space : ∀ t : GoString, ' ' ∉ t → Split t = [t]
  | [], _ => rfl
  | c :: cs, h => by
    have hc : ¬ c = ' ' := fun e => h (by simp [e])
    have hcs : ' ' ∉ cs := fun e => h (List.mem_cons_of_mem _ e)
    unfold Split
    rw [if_neg hc, Split_of_no_space cs hcs]

theorem Split_append_space : ∀ a b : GoString,
    Split (a ++ ' ' :: b) = Split a ++ Split b
  | [], b => by simp [Split]
  | c :: cs, b => by
    have ih := Split_append_space cs b
    by_cases hc : c = ' '
    · subst hc
      show Split (' ' :: (cs ++ ' ' :: b)) = Split (' ' :: cs) ++ Split b
      simp only [Split, if_true, ih, List.cons_append]
    · have hne := Split_ne_nil cs
      cases hs : Split cs with
      | nil => exact absurd hs hne
      | cons w ws =>
        rw [hs] at ih
        show Split (c :: (cs ++ ' ' :: b)) = Split (c :: cs) ++ Split b
        simp only [Split, hc, if_false, ih, hs, List.cons_append]

theorem exists_last_space : ∀ t : GoString, ' ' ∈ t →
    ∃ a b : GoString, t = a ++ ' ' :: b ∧ ' ' ∉ b
  | [], h => by simp at h
  | c :: cs, h => by
    by_cases hcs : ' ' ∈ cs
    · obtain ⟨a, b, hab, hb⟩ := exists_last_space cs hcs
      exact ⟨c :: a, b, by simp [hab], hb⟩
    · have hc : c = ' ' := by
        rcases List.mem_cons.mp h with e | e
        · exact e.symm
        · exact absurd e hcs
      exact ⟨[], cs, by simp [hc], hcs⟩

theorem Split_length_pos (t : GoString) : 0 < (Split t).length :=
  List.length_pos.mpr (Split_ne_nil t)

theorem Split_of_length_le_one (t : GoString) (h : (Split t).length ≤ 1) :
    Split t = [t] := by
  by_cases hs : ' ' ∈ t
  · obtain ⟨a, b, hab, _⟩ := exists_last_space t hs
    rw [hab, Split_append_space, List.length_append] at h
    have h1 := Split_length_pos a
    have h2 := Split_length_pos b
    omega
  · exact Split_of_no_space t hs

theorem space_mem_of_one_lt_length (t : GoString) (h : 1 < (Split t).length) :
    ' ' ∈ t := by
  by_contra hs
  rw [Split_of_no_space t hs] at h
  simp at h

theorem GetWordBeforeCursor_of_no_space (t : GoString) (h : ' ' ∉ t) :
    GetWordBeforeCursor t = t := by
  unfold GetWordBeforeCursor
  rw [List.takeWhile_eq_self_iff.mpr, List.reverse_reverse]
  intro c hc
  have hc1 : c ∈ t := List.mem_reverse.mp hc
  have : c ≠ ' ' := fun e => h (e ▸ hc1)
  simpa using this

theorem GetWordBeforeCursor_append_space (a b : GoString) (h : ' ' ∉ b) :
    GetWordBeforeCursor (a ++ ' ' :: b) = b := by
  unfold GetWordBeforeCursor
  have hb : ∀ c ∈ b.reverse, (decide (c ≠ ' ')) = true := by
    intro c hc
    have hc1 : c ∈ b := List.mem_reverse.mp hc
    have : c ≠ ' ' := fun e => h (e ▸ hc1)
    simpa using this
  rw [List.reverse_append, List.reverse_cons, List.append_assoc,
    List.takeWhile_append_of_pos hb]
  simp

/-- The word before the cursor is the last piece of the split text. -/
theorem Split_getLast (t : GoString) :
    (Split t).getLast? = some (GetWordBeforeCursor t) := by
  by_cases hs : ' ' ∈ t
  · obtain ⟨a, b, hab, hb⟩ := exists_last_space t hs
    rw [hab, Split_append_space, GetWordBeforeCursor_append_space a b hb,
      Split_of_no_space b hb]
    simp
  · rw [Split_of_no_space t hs, GetWordBeforeCursor_of_no_space t hs]
    rfl

/-! ## Dispatch and the history -/

/-- C1, as amended: for a line whose first token is SELECT or LET in any
letter-case, `console_executor` appends the line verbatim as the new last
entry of the history when `vfilter.Parse` succeeds; when `vfilter.Parse`
returns an error the state is left as it was and only the error is printed. -/
theorem console_executor_statement_history {VQL : Type} (up : Char → Char)
    (Parse : GoString → Except GoString VQL) (console_format : GoString)
    (config_obj : Config) (scope : Scope) (state : consoleState) (t : GoString)
    (hkw : ToUpper up ((Split t).headD []) = "SELECT".toList ∨
      ToUpper up ((Split t).headD []) = "LET".toList) :
    (∀ vql, Parse t = Except.ok vql →
      (console_executor up Parse console_format config_obj scope state t).1.History =
        state.History ++ [t]) ∧
    (∀ err, Parse t = Except.error err →
      console_executor up Parse console_format config_obj scope state t =
        (state, [Effect.Printf "Error: %v\n".toList [err]])) := by
  have ht : t ≠ [] := by
    rintro rfl
    rcases hkw with h | h <;> simp [Split, ToUpper] at h
  refine ⟨fun vql hp => ?_, fun err hp => ?_⟩
  · unfold console_executor
    rw [if_neg ht]
    simp only []
    rw [if_pos hkw]
    unfold executeVQL
    rw [hp]
  · unfold console_executor
    rw [if_neg ht]
    simp only []
    rw [if_pos hkw]
    unfold executeVQL
    rw [hp]

/-- C1, witness: the line `select * FROM glob()` is accepted by the sample
parser and becomes the last entry of the history. -/
theorem console_executor_statement_history_witness :
    ToUpper Char.toUpper ((Split "select * FROM glob()".toList).headD []) =
        "SELECT".toList ∧
      (console_executor Char.toUpper sampleParse "json".toList sampleConfig sampleScope
        ⟨["HELP glob".toList]⟩ "select * FROM glob()".toList).1.History =
        ["HELP glob".toList, "select * FROM glob()".toList] :=
  ⟨by decide,
    (console_executor_statement_history Char.toUpper sampleParse "json".toList sampleConfig
      sampleScope ⟨["HELP glob".toList]⟩ "select * FROM glob()".toList
      (Or.inl (by decide))).1 _ rfl⟩

/-- C1, counterexample: the line `select 1` has first token SELECT, the parser
returns an error for it, and the history after the dispatch is still empty:
the line was not appended. -/
theorem console_executor_parse_error_counterexample :
    ToUpper Char.toUpper ((Split "select 1".toList).headD []) = "SELECT".toList ∧
      sampleParse "select 1".toList = Except.error "parse error".toList ∧
      (console_executor Char.toUpper sampleParse "json".toList sampleConfig sampleScope
        ⟨[]⟩ "select 1".toList).1.History = [] ∧
      (console_executor Char.toUpper sampleParse "json".toList sampleConfig sampleScope
        ⟨[]⟩ "select 1".toList).1.History ≠ [] ++ ["select 1".toList] := by
  refine ⟨by decide, rfl, by decide, by decide⟩

/-- C10: the history before `console_executor` is an initial segment of the
history after it, and a history without the empty string stays without it. -/
theorem console_executor_history_invariant {VQL : Type} (up : Char → Char)
    (Parse : GoString → Except GoString VQL) (console_format : GoString)
    (config_obj : Config) (scope : Scope) (state : consoleState) (t : GoString) :
    state.History <+:
        (console_executor up Parse console_format config_obj scope state t).1.History ∧
      ([] ∉ state.History →
        [] ∉ (console_executor up Parse console_format config_obj scope state t).1.History) := by
  unfold console_executor
  split
  · exact ⟨List.prefix_refl _, id⟩
  · next ht =>
    have happ : [] ∉ state.History → [] ∉ state.History ++ [t] := by
      intro h hm
      rcases List.mem_append.mp hm with hm | hm
      · exact h hm
      · exact ht (List.mem_singleton.mp hm).symm
    simp only []
    split
    · unfold executeVQL
      split
      · exact ⟨List.prefix_refl _, id⟩
      · exact ⟨List.prefix_append _ _, happ⟩
    · split
      · exact ⟨List.prefix_append _ _, happ⟩
      · exact ⟨List.prefix_refl _, id⟩

/-! ## The completion result is ordered -/

theorem toUpper_fixesUpperASCII : FixesUpperASCII Char.toUpper := by
  intro c h1 h2
  unfold Char.toUpper
  simp only []
  rw [if_neg]
  omega

theorem sorted_of_length_le_one {l : List Suggest} (h : l.length ≤ 1) :
    l.Sorted textLE := by
  match l, h with
  | [], _ => exact List.sorted_nil
  | [a], _ => exact List.sorted_singleton a

theorem upper_head_of_HasPrefix (up : Char → Char) (hup : FixesUpperASCII up)
    (x c : Char) (xs cs : GoString) (h1 : 65 ≤ x.toNat) (h2 : x.toNat ≤ 90)
    (h : HasPrefix (ToUpper up (x :: xs)) (ToUpper up (c :: cs)) = true) : up c = x := by
  simp only [HasPrefix, ToUpper, List.map, List.isPrefixOf, Bool.and_eq_true,
    beq_iff_eq] at h
  rw [h.1, hup x h1 h2]

theorem toplevel_filter_length (up : Char → Char) (hup : FixesUpperASCII up)
    (w : GoString) (hw : w ≠ []) :
    (FilterHasPrefix up toplevel_commands w true).length ≤ 1 := by
  obtain ⟨c, cs, rfl⟩ := List.exists_cons_of_ne_nil hw
  have kS := upper_head_of_HasPrefix up hup 'S' c "ELECT".toList cs (by decide) (by decide)
  have kL := upper_head_of_HasPrefix up hup 'L' c "ET".toList cs (by decide) (by decide)
  have kH := upper_head_of_HasPrefix up hup 'H' c "ELP".toList cs (by decide) (by decide)
  unfold FilterHasPrefix
  rw [if_neg hw]
  simp only [if_true, toplevel_commands]
  cases h1 : HasPrefix (ToUpper up "SELECT".toList) (ToUpper up (c :: cs)) <;>
    cases h2 : HasPrefix (ToUpper up "LET".toList) (ToUpper up (c :: cs)) <;>
    cases h3 : HasPrefix (ToUpper up "HELP".toList) (ToUpper up (c :: cs)) <;>
    simp only [List.filter, h1, h2, h3, List.length_cons, List.length_nil] <;>
    first
      | omega
      | exact absurd ((kS h1).symm.trans (kL h2)) (by decide)
      | exact absurd ((kS h1).symm.trans (kH h3)) (by decide)
      | exact absurd ((kL h2).symm.trans (kH h3)) (by decide)

theorem completeSELECT_sorted (up : Char → Char) (config_obj : Config) (scope : Scope)
    (args : List GoString) (w : GoString) :
    (completeSELECT up config_obj scope args w).Sorted textLE :=
  FilterHasPrefix_sorted up w true (sortSlice_sorted _)

theorem completeHELP_sorted (up : Char → Char) (config_obj : Config) (scope : Scope)
    (args : List GoString) (w : GoString) :
    (completeHELP up config_obj scope args w).Sorted textLE :=
  FilterHasPrefix_sorted up w true (sortSlice_sorted _)

theorem completeLET_sorted (up : Char → Char) (config_obj : Config) (scope : Scope)
    (args : List GoString) (w : GoString) :
    (completeLET up config_obj scope args w).Sorted textLE := by
  unfold completeLET
  split_ifs
  · exact FilterHasPrefix_sorted up w true (sortSlice_sorted _)
  · exact FilterHasPrefix_sorted up w true (sortSlice_sorted _)
  · exact completeSELECT_sorted up config_obj scope _ w
  · exact FilterHasPrefix_sorted up w true (sortSlice_sorted _)

/-- C2: for every text, the list returned by `console_completer` is in
non-decreasing order of `Text` under the lexicographic comparison of Go
strings, in every branch: the one-token branch over the top-level keywords,
the SELECT, LET and HELP branches and the branch of an unknown keyword. -/
theorem console_completer_sorted (up : Char → Char) (hup : FixesUpperASCII up)
    (config_obj : Config) (scope : Scope) (t : GoString) :
    (console_completer up config_obj scope t).Sorted textLE := by
  unfold console_completer
  split
  · exact List.sorted_nil
  · next ht =>
    simp only []
    split
    · next hlen =>
      apply sorted_of_length_le_one
      apply toplevel_filter_length up hup
      rw [Split_of_length_le_one t hlen]
      exact ht
    · split_ifs
      · exact completeSELECT_sorted up config_obj scope _ _
      · exact completeLET_sorted up config_obj scope _ _
      · exact completeHELP_sorted up config_obj scope _ _
      · exact List.sorted_nil

/-- C2, witness: the suggestions for `SELECT ` over the sample catalogs, which
are `*`, `FROM`, `config`, `env`, `format(`, are in order. -/
theorem console_completer_sorted_witness :
    (console_completer Char.toUpper sampleConfig sampleScope "SELECT ".toList).map
        (fun s => s.Text) =
        ["*".toList, "FROM".toList, "config".toList, "env".toList, "format(".toList] ∧
      (console_completer Char.toUpper sampleConfig sampleScope
        "SELECT ".toList).Sorted textLE :=
  ⟨by decide,
    console_completer_sorted Char.toUpper toUpper_fixesUpperASCII sampleConfig sampleScope
      "SELECT ".toList⟩

/-! ## The ASCII case maps -/

theorem toNat_ofNat_of_lt (n : Nat) (h : n < 55296) : (Char.ofNat n).toNat = n := by
  have hv : n.isValidChar := Or.inl h
  unfold Char.ofNat
  rw [dif_pos hv]
  rfl

theorem char_eq_of_toNat_eq {a b : Char} (h : a.toNat = b.toNat) : a = b := by
  rw [← Char.ofNat_toNat a, ← Char.ofNat_toNat b, h]

theorem toUpper_toNat (c : Char) :
    c.toUpper.toNat = if 97 ≤ c.toNat ∧ c.toNat ≤ 122 then c.toNat - 32 else c.toNat := by
  unfold Char.toUpper
  simp only [ge_iff_le]
  split
  · next h => exact toNat_ofNat_of_lt _ (by omega)
  · rfl

theorem toLower_toNat (c : Char) :
    c.toLower.toNat = if 65 ≤ c.toNat ∧ c.toNat ≤ 90 then c.toNat + 32 else c.toNat := by
  unfold Char.toLower
  simp only [ge_iff_le]
  split
  · next h => exact toNat_ofNat_of_lt _ (by omega)
  · rfl

theorem ascii_foldsTogether : FoldsTogether Char.toUpper Char.toLower := by
  intro a b h
  apply char_eq_of_toNat_eq
  have h1 := congrArg Char.toNat h
  rw [toUpper_toNat, toUpper_toNat] at h1
  rw [toLower_toNat, toLower_toNat]
  split_ifs at h1 ⊢ <;> omega

/-! ## The filter keeps what starts with the word before the cursor -/

theorem HasPrefix_lower_of_upper (up lo : Char → Char) (hfold : FoldsTogether up lo) :
    ∀ s w : GoString, HasPrefix (ToUpper up s) (ToUpper up w) = true →
      HasPrefix (ToLower lo s) (ToLower lo w) = true
  | _, [], _ => by simp [HasPrefix, ToLower]
  | [], _ :: _, h => by simp [HasPrefix, ToUpper] at h
  | a :: s, b :: w, h => by
    simp only [HasPrefix, ToUpper, ToLower, List.map, List.isPrefixOf, Bool.and_eq_true,
      beq_iff_eq] at h ⊢
    exact ⟨hfold b a h.1, HasPrefix_lower_of_upper up lo hfold s w h.2⟩

theorem mem_completeLET_upper (up : Char → Char) (config_obj : Config) (scope : Scope)
    (args : List GoString) (w : GoString) (s : Suggest)
    (hs : s ∈ completeLET up config_obj scope args w) :
    HasPrefix (ToUpper up s.Text) (ToUpper up w) = true := by
  unfold completeLET at hs
  split_ifs at hs
  · exact mem_FilterHasPrefix_upper up hs
  · exact mem_FilterHasPrefix_upper up hs
  · exact mem_FilterHasPrefix_upper up hs
  · exact mem_FilterHasPrefix_upper up hs

theorem mem_console_completer_upper (up : Char → Char) (config_obj : Config)
    (scope : Scope) (t : GoString) (s : Suggest)
    (hs : s ∈ console_completer up config_obj scope t) :
    HasPrefix (ToUpper up s.Text) (ToUpper up (GetWordBeforeCursor t)) = true := by
  unfold console_completer at hs
  split at hs
  · simp at hs
  · simp only [] at hs
    split at hs
    · next hlen =>
      have hsp : Split t = [t] := Split_of_length_le_one t hlen
      have hno : ' ' ∉ t := fun h => by
        have := exists_last_space t h
        obtain ⟨a, b, hab, _⟩ := this
        rw [hab, Split_append_space, List.length_append] at hlen
        have h1 := Split_length_pos a
        have h2 := Split_length_pos b
        omega
      rw [hsp] at hs
      rw [GetWordBeforeCursor_of_no_space t hno]
      exact mem_FilterHasPrefix_upper up hs
    · split_ifs at hs
      · exact mem_FilterHasPrefix_upper up hs
      · exact mem_completeLET_upper up config_obj scope _ _ s hs
      · exact mem_FilterHasPrefix_upper up hs
      · simp at hs

/-- C3, as amended: every suggestion `s` returned by `console_completer` for
the text `t` satisfies `upper(s.Text)` starts with `upper(w)`, where `upper` is
`strings.ToUpper` and `w` is the text after the last space of `t` (all of `t`
when it has no space); `lower(s.Text)` starts with `lower(w)` as well whenever
the two case maps identify the same runes, as they do on ASCII. -/
theorem console_completer_prefix_filtered (up lo : Char → Char)
    (config_obj : Config) (scope : Scope) (t : GoString)
    (s : Suggest) (hs : s ∈ console_completer up config_obj scope t) :
    HasPrefix (ToUpper up s.Text) (ToUpper up (GetWordBeforeCursor t)) = true ∧
      (FoldsTogether up lo →
        HasPrefix (ToLower lo s.Text) (ToLower lo (GetWordBeforeCursor t)) = true) :=
  ⟨mem_console_completer_upper up config_obj scope t s hs,
    fun hfold => HasPrefix_lower_of_upper up lo hfold _ _
      (mem_console_completer_upper up config_obj scope t s hs)⟩

/-- C3, witness: `format(` is suggested for `select FO`, whose word before the
cursor is `FO`; `FORMAT(` starts with `FO`, and with the ASCII case maps
`format(` starts with `fo`. -/
theorem console_completer_prefix_filtered_witness :
    (⟨"format(".toList, "Format a string".toList⟩ : Suggest) ∈
        console_completer Char.toUpper sampleConfig sampleScope "select FO".toList ∧
      GetWordBeforeCursor "select FO".toList = "FO".toList ∧
      HasPrefix (ToUpper Char.toUpper "format(".toList)
        (ToUpper Char.toUpper (GetWordBeforeCursor "select FO".toList)) = true ∧
      HasPrefix (ToLower Char.toLower "format(".toList)
        (ToLower Char.toLower (GetWordBeforeCursor "select FO".toList)) = true :=
  ⟨by decide, by decide,
    (console_completer_prefix_filtered Char.toUpper Char.toLower
      sampleConfig sampleScope "select FO".toList
      ⟨"format(".toList, "Format a string".toList⟩ (by decide)).1,
    (console_completer_prefix_filtered Char.toUpper Char.toLower
      sampleConfig sampleScope "select FO".toList
      ⟨"format(".toList, "Format a string".toList⟩ (by decide)).2 ascii_foldsTogether⟩

/-- C3, counterexample: the text is the single rune long s, U+017F, whose
upper-case form is `S`.  The completer returns SELECT, the word before the
cursor is the long s, and `select`, the lower-case form of the suggestion, does
not start with the long s, which is its own lower-case form. -/
theorem console_completer_long_s_counterexample :
    console_completer upperWithLongS sampleConfig sampleScope [Char.ofNat 383] =
        [⟨"SELECT".toList, "Start a query".toList⟩] ∧
      GetWordBeforeCursor [Char.ofNat 383] = [Char.ofNat 383] ∧
      ToLower Char.toLower "SELECT".toList = "select".toList ∧
      ToLower Char.toLower [Char.ofNat 383] = [Char.ofNat 383] ∧
      HasPrefix (ToLower Char.toLower "SELECT".toList)
        (ToLower Char.toLower (GetWordBeforeCursor [Char.ofNat 383])) = false := by
  refine ⟨by decide, by decide, by decide, by decide, by decide⟩

/-! ## The one-token branch -/

/-- C4: on the empty text `console_completer` returns the empty list; on a
non-empty text without a space it returns exactly the top-level suggestions
SELECT, LET, HELP whose upper-cased `Text` starts with the upper-cased text,
whatever the catalogs hold; on the text `S` that is SELECT alone. -/
theorem console_completer_single_token (up : Char → Char) (hup : FixesUpperASCII up)
    (config_obj : Config) (scope : Scope) :
    console_completer up config_obj scope [] = [] ∧
      (∀ t : GoString, t ≠ [] → ' ' ∉ t →
        console_completer up config_obj scope t =
          toplevel_commands.filter fun s =>
            HasPrefix (ToUpper up s.Text) (ToUpper up t)) ∧
      console_completer up config_obj scope "S".toList =
        [⟨"SELECT".toList, "Start a query".toList⟩] := by
  have h2 : ∀ t : GoString, t ≠ [] → ' ' ∉ t →
      console_completer up config_obj scope t =
        toplevel_commands.filter fun s =>
          HasPrefix (ToUpper up s.Text) (ToUpper up t) := by
    intro t ht hsp
    unfold console_completer
    rw [if_neg ht, Split_of_no_space t hsp]
    simp only [List.length_singleton, le_refl, if_true, List.headD_cons]
    unfold FilterHasPrefix
    rw [if_neg ht]
    simp only [if_true]
  refine ⟨by simp [console_completer], h2, ?_⟩
  rw [h2 "S".toList (by decide) (by decide)]
  have hS : up 'S' = 'S' := hup 'S' (by decide) (by decide)
  have hL : up 'L' = 'L' := hup 'L' (by decide) (by decide)
  have hH : up 'H' = 'H' := hup 'H' (by decide) (by decide)
  simp [toplevel_commands, List.filter, HasPrefix, ToUpper, List.isPrefixOf, hS, hL, hH]

/-- C4, witness: with the ASCII case map the text `s` yields SELECT alone, and
the text `x` yields nothing. -/
theorem console_completer_single_token_witness :
    console_completer Char.toUpper sampleConfig sampleScope "S".toList =
        [⟨"SELECT".toList, "Start a query".toList⟩] ∧
      console_completer Char.toUpper sampleConfig sampleScope "s".toList =
        [⟨"SELECT".toList, "Start a query".toList⟩] ∧
      console_completer Char.toUpper sampleConfig sampleScope "x".toList = [] :=
  ⟨(console_completer_single_token Char.toUpper toUpper_fixesUpperASCII sampleConfig
      sampleScope).2.2, by decide, by decide⟩

/-! ## The SELECT classifier -/

theorem lastWords_append (xs : List GoString) (x : GoString) (p : GoString × GoString) :
    lastWords (xs ++ [x]) p =
      if x ≠ [] then (x, (lastWords xs p).1) else lastWords xs p := by
  simp [lastWords, List.foldl_append]

/-- The loop of `completeSELECT` computes the last and the previous non-empty
token. -/
theorem lastWords_eq (args : List GoString) :
    lastWords args ([], []) = (lastNonEmptyToken args, previousNonEmptyToken args) := by
  induction args using List.reverseRecOn with
  | nil => rfl
  | append_singleton xs x ih =>
    rw [lastWords_append, ih]
    by_cases hx : x = []
    · subst hx
      simp [lastNonEmptyToken, previousNonEmptyToken, nonEmptyTokens, List.filter_append]
    · simp [lastNonEmptyToken, previousNonEmptyToken, nonEmptyTokens, List.filter_append,
        hx]

theorem ToUpper_fixed (up : Char → Char) (hup : FixesUpperASCII up) :
    ∀ s : GoString, (∀ c ∈ s, 65 ≤ c.toNat ∧ c.toNat ≤ 90) → ToUpper up s = s
  | [], _ => rfl
  | c :: cs, h => by
    have hc := h c (List.mem_cons_self c cs)
    have ih := ToUpper_fixed up hup cs fun d hd => h d (List.mem_cons_of_mem c hd)
    unfold ToUpper at ih ⊢
    rw [List.map_cons, hup c hc.1 hc.2, ih]

theorem console_completer_of_SELECT (up : Char → Char) (config_obj : Config)
    (scope : Scope) (t : GoString) (hlen : 1 < (Split t).length)
    (hkw : ToUpper up ((Split t).headD []) = "SELECT".toList) :
    console_completer up config_obj scope t =
      completeSELECT up config_obj scope (Split t) (GetWordBeforeCursor t) := by
  have ht : t ≠ [] := by
    rintro rfl
    simp [Split] at hlen
  unfold console_completer
  rw [if_neg ht]
  simp only []
  rw [if_neg (by omega), if_pos hkw]

theorem selectColumns_without_FROM (up : Char → Char) (config_obj : Config)
    (scope : Scope) (args : List GoString) (current_word : GoString)
    (hfrom : NoCaseInString up args "FROM".toList = false) :
    selectColumns up config_obj scope args current_word =
      [suggestFROM] ++
        (if ToUpper up (lastNonEmptyToken args) = "SELECT".toList then
          [suggestStar] ++ suggestVars scope ++ suggestFunctions scope true
        else if HasSuffix (lastNonEmptyToken args) ",".toList = true ∨ current_word ≠ [] then
          suggestVars scope ++ suggestFunctions scope true
        else []) := by
  unfold selectColumns
  rw [lastWords_eq, hfrom]
  simp only [Bool.not_false, if_true, Bool.or_eq_true, decide_eq_true_eq]

theorem suggestFunctions_true (scope : Scope) :
    suggestFunctions scope true =
      scope.Functions.map fun function => ⟨function.Name ++ "(".toList, function.Doc⟩ := by
  simp [suggestFunctions]

theorem mem_suggestVars {scope : Scope} {s : Suggest} (h : s ∈ suggestVars scope) :
    s.Description = [] ∧ s.Text ∈ scope.Keys := by
  unfold suggestVars at h
  obtain ⟨k, hk, rfl⟩ := List.mem_map.mp h
  exact ⟨rfl, (List.mem_filter.mp hk).1⟩

theorem mem_suggestFunctions_true {scope : Scope} {s : Suggest}
    (h : s ∈ suggestFunctions scope true) :
    ∃ n : GoString, s.Text = n ++ "(".toList := by
  rw [suggestFunctions_true] at h
  obtain ⟨f, _, rfl⟩ := List.mem_map.mp h
  exact ⟨f.Name, rfl⟩

theorem append_bracket_ne (n w : GoString) (hw : w.getLast? ≠ some '(') :
    n ++ "(".toList ≠ w := by
  intro h
  apply hw
  rw [← h]
  simp

theorem ToUpper_SELECT (up : Char → Char) (hup : FixesUpperASCII up) :
    ToUpper up "SELECT".toList = "SELECT".toList :=
  ToUpper_fixed up hup _ (by decide)

theorem ToUpper_FROM (up : Char → Char) (hup : FixesUpperASCII up) :
    ToUpper up "FROM".toList = "FROM".toList :=
  ToUpper_fixed up hup _ (by decide)

theorem ToUpper_WHERE (up : Char → Char) (hup : FixesUpperASCII up) :
    ToUpper up "WHERE".toList = "WHERE".toList :=
  ToUpper_fixed up hup _ (by decide)

theorem console_completer_SELECT_space (up : Char → Char) (hup : FixesUpperASCII up)
    (config_obj : Config) (scope : Scope) :
    (console_completer up config_obj scope "SELECT ".toList).Perm
      ([suggestFROM] ++
        ([suggestStar] ++ suggestVars scope ++ suggestFunctions scope true)) := by
  have h : console_completer up config_obj scope "SELECT ".toList =
      sortSlice ([suggestFROM] ++
        ([suggestStar] ++ suggestVars scope ++ suggestFunctions scope true)) := by
    have hsplit : Split "SELECT ".toList = ["SELECT".toList, []] := by decide
    have hw : GetWordBeforeCursor "SELECT ".toList = [] := by decide
    have hfrom : NoCaseInString up ["SELECT".toList, []] "FROM".toList = false := by
      simp only [NoCaseInString, List.any, ToUpper_SELECT up hup, ToUpper_FROM up hup]
      simp [ToUpper]
    have hlast : lastNonEmptyToken ["SELECT".toList, []] = "SELECT".toList := by decide
    rw [console_completer_of_SELECT up config_obj scope _ (by rw [hsplit]; decide)
      (by rw [hsplit]; exact ToUpper_SELECT up hup), hsplit, hw]
    unfold completeSELECT
    rw [selectColumns_without_FROM up config_obj scope _ _ hfrom, hlast,
      if_pos (ToUpper_SELECT up hup)]
    rfl
  rw [h]
  exact sortSlice_perm _

/-- The result of `completeSELECT` is an ordered arrangement of the candidates
that pass the filter. -/
theorem completeSELECT_arrangement (up : Char → Char) (config_obj : Config)
    (scope : Scope) (args : List GoString) (current_word : GoString)
    (candidates : List Suggest)
    (h : selectColumns up config_obj scope args current_word = candidates) :
    (completeSELECT up config_obj scope args current_word).Sorted textLE ∧
      (completeSELECT up config_obj scope args current_word).Perm
        (FilterHasPrefix up candidates current_word true) := by
  unfold completeSELECT
  rw [h]
  exact FilterHasPrefix_sortSlice_arrangement up candidates current_word

/-- C5: while no token equals FROM case-insensitively, the candidates of
`completeSELECT` are FROM, `*`, the variables and every function name followed
by `(` when the last non-empty token is SELECT; FROM, the variables and the
function names followed by `(` when otherwise the last non-empty token ends
with a comma or the word before the cursor is not empty; FROM alone otherwise;
the result is ordered by `Text` and holds exactly the candidates that pass the
filter by the word before the cursor, each as often as it is a candidate.  For
the text `SELECT ` the result holds `*` and not the WHERE keyword. -/
theorem completeSELECT_without_FROM (up : Char → Char) (hup : FixesUpperASCII up)
    (config_obj : Config) (scope : Scope) (args : List GoString)
    (current_word : GoString)
    (hfrom : NoCaseInString up args "FROM".toList = false) :
    (ToUpper up (lastNonEmptyToken args) = "SELECT".toList →
        (completeSELECT up config_obj scope args current_word).Sorted textLE ∧
          (completeSELECT up config_obj scope args current_word).Perm
            (FilterHasPrefix up ([suggestFROM, suggestStar] ++ suggestVars scope ++
              scope.Functions.map fun function =>
                ⟨function.Name ++ "(".toList, function.Doc⟩) current_word true)) ∧
      (ToUpper up (lastNonEmptyToken args) ≠ "SELECT".toList →
        HasSuffix (lastNonEmptyToken args) ",".toList = true ∨ current_word ≠ [] →
        (completeSELECT up config_obj scope args current_word).Sorted textLE ∧
          (completeSELECT up config_obj scope args current_word).Perm
            (FilterHasPrefix up ([suggestFROM] ++ suggestVars scope ++
              scope.Functions.map fun function =>
                ⟨function.Name ++ "(".toList, function.Doc⟩) current_word true)) ∧
      (ToUpper up (lastNonEmptyToken args) ≠ "SELECT".toList →
        HasSuffix (lastNonEmptyToken args) ",".toList = false → current_word = [] →
        completeSELECT up config_obj scope args current_word = [suggestFROM]) ∧
      suggestStar ∈ console_completer up config_obj scope "SELECT ".toList ∧
      suggestWHERE ∉ console_completer up config_obj scope "SELECT ".toList ∧
      ("WHERE".toList ∉ scope.Keys →
        ∀ s ∈ console_completer up config_obj scope "SELECT ".toList,
          s.Text ≠ "WHERE".toList) := by
  have hcols := selectColumns_without_FROM up config_obj scope args current_word hfrom
  refine ⟨fun h1 => ?_, fun h1 h2 => ?_, fun h1 h2 h3 => ?_, ?_, ?_, ?_⟩
  · apply completeSELECT_arrangement
    rw [hcols, if_pos h1, suggestFunctions_true]
    simp only [List.cons_append, List.nil_append, List.append_assoc]
  · apply completeSELECT_arrangement
    rw [hcols, if_neg h1, if_pos h2, suggestFunctions_true]
    simp only [List.cons_append, List.nil_append, List.append_assoc]
  · unfold completeSELECT
    have h2n : ¬ (HasSuffix (lastNonEmptyToken args) ",".toList = true ∨
        current_word ≠ []) := by
      rintro (h | h)
      · rw [h2] at h; cases h
      · exact h h3
    rw [hcols, if_neg h1, if_neg h2n, h3]
    rfl
  · rw [(console_completer_SELECT_space up hup config_obj scope).mem_iff]
    simp
  · rw [(console_completer_SELECT_space up hup config_obj scope).mem_iff]
    intro h
    rcases List.mem_append.mp h with h | h
    · exact absurd (List.mem_singleton.mp h) (by decide)
    · rcases List.mem_append.mp h with h | h
      · rcases List.mem_append.mp h with h | h
        · exact absurd (List.mem_singleton.mp h) (by decide)
        · exact absurd (mem_suggestVars h).1 (by decide)
      · obtain ⟨n, hn⟩ := mem_suggestFunctions_true h
        exact append_bracket_ne n _ (by decide) hn.symm
  · intro hk s hs
    rw [(console_completer_SELECT_space up hup config_obj scope).mem_iff] at hs
    rcases List.mem_append.mp hs with h | h
    · rw [List.mem_singleton.mp h]; decide
    · rcases List.mem_append.mp h with h | h
      · rcases List.mem_append.mp h with h | h
        · rw [List.mem_singleton.mp h]; decide
        · exact fun e => hk (e ▸ (mem_suggestVars h).2)
      · obtain ⟨n, hn⟩ := mem_suggestFunctions_true h
        rw [hn]
        exact append_bracket_ne n _ (by decide)

/-- C5, witness: the three cases on the token lists of `SELECT `, `SELECT a, `
and `SELECT a `, none of which holds a FROM token. -/
theorem completeSELECT_without_FROM_witness :
    NoCaseInString Char.toUpper (Split "SELECT ".toList) "FROM".toList = false ∧
      (console_completer Char.toUpper sampleConfig sampleScope "SELECT ".toList).map
        (fun s => s.Text) =
        ["*".toList, "FROM".toList, "config".toList, "env".toList, "format(".toList] ∧
      (console_completer Char.toUpper sampleConfig sampleScope "SELECT a, ".toList).map
        (fun s => s.Text) =
        ["FROM".toList, "config".toList, "env".toList, "format(".toList] ∧
      (console_completer Char.toUpper sampleConfig sampleScope "SELECT a ".toList).map
        (fun s => s.Text) = ["FROM".toList] ∧
      suggestStar ∈ console_completer Char.toUpper sampleConfig sampleScope
        "SELECT ".toList :=
  ⟨by decide, by decide, by decide, by decide,
    (completeSELECT_without_FROM Char.toUpper toUpper_fixesUpperASCII sampleConfig
      sampleScope (Split "SELECT ".toList) [] (by decide)).2.2.2.1⟩

theorem suggestPlugins_true (config_obj : Config) (scope : Scope) :
    suggestPlugins config_obj scope true =
      (scope.Plugins.map fun plugin => ⟨plugin.Name ++ "(".toList, plugin.Doc⟩) ++
        artifactSuggestions config_obj "(".toList := by
  unfold suggestPlugins artifactSuggestions
  cases config_obj.GetGlobalRepository with
  | none => simp
  | some repository =>
    simp only [if_true, List.append_cancel_left_eq]
    apply List.filterMap_congr
    intro name _
    cases repository.Get name <;> simp

theorem suggestPlugins_false (config_obj : Config) (scope : Scope) :
    suggestPlugins config_obj scope false =
      (scope.Plugins.map fun plugin => ⟨plugin.Name, plugin.Doc⟩) ++
        artifactSuggestions config_obj [] := by
  unfold suggestPlugins artifactSuggestions
  cases config_obj.GetGlobalRepository with
  | none => simp
  | some repository =>
    simp only [Bool.false_eq_true, if_false, List.append_cancel_left_eq]
    apply List.filterMap_congr
    intro name _
    cases repository.Get name <;> simp

theorem mem_suggestPlugins_true {config_obj : Config} {scope : Scope} {s : Suggest}
    (h : s ∈ suggestPlugins config_obj scope true) :
    ∃ n : GoString, s.Text = n ++ "(".toList := by
  rw [suggestPlugins_true] at h
  rcases List.mem_append.mp h with h | h
  · obtain ⟨f, _, rfl⟩ := List.mem_map.mp h
    exact ⟨f.Name, rfl⟩
  · unfold artifactSuggestions at h
    cases hr : config_obj.GetGlobalRepository with
    | none => rw [hr] at h; simp at h
    | some repository =>
      rw [hr] at h
      obtain ⟨name, _, hname⟩ := List.mem_filterMap.mp h
      cases hg : repository.Get name with
      | none => rw [hg] at hname; simp at hname
      | some artifact =>
        rw [hg] at hname
        simp only [Option.map_some', Option.some.injEq] at hname
        exact ⟨"Artifact.".toList ++ name, by rw [← hname]⟩

theorem selectColumns_with_FROM (up : Char → Char) (config_obj : Config)
    (scope : Scope) (args : List GoString) (current_word : GoString)
    (hfrom : NoCaseInString up args "FROM".toList = true) :
    selectColumns up config_obj scope args current_word =
      if ToUpper up (lastNonEmptyToken args) = "FROM".toList ∨
          (current_word ≠ [] ∧ ToUpper up (previousNonEmptyToken args) = "FROM".toList) then
        suggestVars scope ++ suggestPlugins config_obj scope true
      else if NoCaseInString up args "WHERE".toList = false then
        [suggestWHERE] ++ suggestLimit
      else
        suggestLimit ++ suggestVars scope ++ suggestFunctions scope true := by
  unfold selectColumns
  rw [lastWords_eq, hfrom]
  simp only [Bool.not_true, Bool.false_eq_true, if_false, Bool.or_eq_true,
    Bool.and_eq_true, decide_eq_true_eq, Bool.not_eq_true']

theorem console_completer_SELECT_FROM_space (up : Char → Char)
    (hup : FixesUpperASCII up) (config_obj : Config) (scope : Scope) :
    (console_completer up config_obj scope "SELECT * FROM ".toList).Perm
      (suggestVars scope ++ suggestPlugins config_obj scope true) := by
  have h : console_completer up config_obj scope "SELECT * FROM ".toList =
      sortSlice (suggestVars scope ++ suggestPlugins config_obj scope true) := by
    have hsplit : Split "SELECT * FROM ".toList =
        ["SELECT".toList, "*".toList, "FROM".toList, []] := by decide
    have hw : GetWordBeforeCursor "SELECT * FROM ".toList = [] := by decide
    have hfrom : NoCaseInString up ["SELECT".toList, "*".toList, "FROM".toList, []]
        "FROM".toList = true := by
      simp [NoCaseInString, List.any]
    have hlast : lastNonEmptyToken ["SELECT".toList, "*".toList, "FROM".toList, []] =
        "FROM".toList := by decide
    rw [console_completer_of_SELECT up config_obj scope _ (by rw [hsplit]; decide)
      (by rw [hsplit]; exact ToUpper_SELECT up hup), hsplit, hw]
    unfold completeSELECT
    rw [selectColumns_with_FROM up config_obj scope _ _ hfrom, hlast,
      if_pos (Or.inl (ToUpper_FROM up hup))]
    rfl
  rw [h]
  exact sortSlice_perm _

theorem console_completer_SELECT_WHERE_space (up : Char → Char)
    (hup : FixesUpperASCII up) (config_obj : Config) (scope : Scope) :
    (console_completer up config_obj scope "SELECT * FROM plugin() WHERE ".toList).Perm
      (suggestLimit ++ suggestVars scope ++ suggestFunctions scope true) := by
  have h : console_completer up config_obj scope "SELECT * FROM plugin() WHERE ".toList =
      sortSlice (suggestLimit ++ suggestVars scope ++ suggestFunctions scope true) := by
    have hsplit : Split "SELECT * FROM plugin() WHERE ".toList =
        ["SELECT".toList, "*".toList, "FROM".toList, "plugin()".toList, "WHERE".toList,
          []] := by decide
    have hw : GetWordBeforeCursor "SELECT * FROM plugin() WHERE ".toList = [] := by decide
    have hfrom : NoCaseInString up
        ["SELECT".toList, "*".toList, "FROM".toList, "plugin()".toList, "WHERE".toList, []]
        "FROM".toList = true := by
      simp [NoCaseInString, List.any]
    have hwhere : ¬ NoCaseInString up
        ["SELECT".toList, "*".toList, "FROM".toList, "plugin()".toList, "WHERE".toList, []]
        "WHERE".toList = false := by
      simp [NoCaseInString, List.any]
    have hlast : lastNonEmptyToken
        ["SELECT".toList, "*".toList, "FROM".toList, "plugin()".toList, "WHERE".toList, []] =
        "WHERE".toList := by decide
    have hcond : ¬ (ToUpper up "WHERE".toList = "FROM".toList ∨
        (([] : GoString) ≠ [] ∧ ToUpper up (previousNonEmptyToken
          ["SELECT".toList, "*".toList, "FROM".toList, "plugin()".toList, "WHERE".toList,
            []]) = "FROM".toList)) := by
      rw [ToUpper_WHERE up hup]
      rintro (h | h)
      · exact absurd h (by decide)
      · exact h.1 rfl
    rw [console_completer_of_SELECT up config_obj scope _ (by rw [hsplit]; decide)
      (by rw [hsplit]; exact ToUpper_SELECT up hup), hsplit, hw]
    unfold completeSELECT
    rw [selectColumns_with_FROM up config_obj scope _ _ hfrom, hlast, if_neg hcond,
      if_neg hwhere]
    rfl
  rw [h]
  exact sortSlice_perm _

theorem mem_suggestLimit {s : Suggest} (h : s ∈ suggestLimit) :
    s.Text = "LIMIT".toList ∨ s.Text = "ORDER BY".toList := by
  unfold suggestLimit at h
  rcases List.mem_cons.mp h with h | h
  · exact Or.inl (by rw [h])
  · exact Or.inr (by rw [List.mem_singleton.mp h])

/-- C6: once a token equals FROM case-insensitively, the candidates of
`completeSELECT` are the variables, every plugin name followed by `(` and
`Artifact.<name>(` for every artifact when the last non-empty token is FROM,
or the word before the cursor is not empty and the previous non-empty token is
FROM; otherwise WHERE, LIMIT and ORDER BY when no token equals WHERE;
otherwise LIMIT, ORDER BY, the variables and every function name followed by
`(`.  The result is ordered by `Text` and holds exactly the candidates that
pass the filter by the word before the cursor.  So `SELECT * FROM ` yields
the plugin names and not the WHERE keyword, and `SELECT * FROM plugin() WHERE `
yields LIMIT and ORDER BY and not the WHERE keyword. -/
theorem completeSELECT_with_FROM (up : Char → Char) (hup : FixesUpperASCII up)
    (config_obj : Config) (scope : Scope) (args : List GoString)
    (current_word : GoString)
    (hfrom : NoCaseInString up args "FROM".toList = true) :
    (ToUpper up (lastNonEmptyToken args) = "FROM".toList ∨
          (current_word ≠ [] ∧
            ToUpper up (previousNonEmptyToken args) = "FROM".toList) →
        (completeSELECT up config_obj scope args current_word).Sorted textLE ∧
          (completeSELECT up config_obj scope args current_word).Perm
            (FilterHasPrefix up (suggestVars scope ++
              (scope.Plugins.map fun plugin => ⟨plugin.Name ++ "(".toList, plugin.Doc⟩) ++
              artifactSuggestions config_obj "(".toList) current_word true)) ∧
      (¬ (ToUpper up (lastNonEmptyToken args) = "FROM".toList ∨
          (current_word ≠ [] ∧
            ToUpper up (previousNonEmptyToken args) = "FROM".toList)) →
        NoCaseInString up args "WHERE".toList = false →
        (completeSELECT up config_obj scope args current_word).Sorted textLE ∧
          (completeSELECT up config_obj scope args current_word).Perm
            (FilterHasPrefix up
              [suggestWHERE, ⟨"LIMIT".toList, "Limit to this many rows".toList⟩,
                ⟨"ORDER BY".toList, "order results by a column".toList⟩]
              current_word true)) ∧
      (¬ (ToUpper up (lastNonEmptyToken args) = "FROM".toList ∨
          (current_word ≠ [] ∧
            ToUpper up (previousNonEmptyToken args) = "FROM".toList)) →
        NoCaseInString up args "WHERE".toList = true →
        (completeSELECT up config_obj scope args current_word).Sorted textLE ∧
          (completeSELECT up config_obj scope args current_word).Perm
            (FilterHasPrefix up
              ([⟨"LIMIT".toList, "Limit to this many rows".toList⟩,
                ⟨"ORDER BY".toList, "order results by a column".toList⟩] ++
                suggestVars scope ++
                scope.Functions.map fun function =>
                  ⟨function.Name ++ "(".toList, function.Doc⟩) current_word true)) ∧
      ((∀ plugin ∈ scope.Plugins, (⟨plugin.Name ++ "(".toList, plugin.Doc⟩ : Suggest) ∈
          console_completer up config_obj scope "SELECT * FROM ".toList) ∧
        suggestWHERE ∉ console_completer up config_obj scope "SELECT * FROM ".toList ∧
        ("WHERE".toList ∉ scope.Keys →
          ∀ s ∈ console_completer up config_obj scope "SELECT * FROM ".toList,
            s.Text ≠ "WHERE".toList)) ∧
      ((⟨"LIMIT".toList, "Limit to this many rows".toList⟩ : Suggest) ∈
          console_completer up config_obj scope "SELECT * FROM plugin() WHERE ".toList ∧
        (⟨"ORDER BY".toList, "order results by a column".toList⟩ : Suggest) ∈
          console_completer up config_obj scope "SELECT * FROM plugin() WHERE ".toList ∧
        suggestWHERE ∉
          console_completer up config_obj scope "SELECT * FROM plugin() WHERE ".toList ∧
        ("WHERE".toList ∉ scope.Keys →
          ∀ s ∈ console_completer up config_obj scope
              "SELECT * FROM plugin() WHERE ".toList,
            s.Text ≠ "WHERE".toList)) := by
  have hcols := selectColumns_with_FROM up config_obj scope args current_word hfrom
  refine ⟨fun h1 => ?_, fun h1 h2 => ?_, fun h1 h2 => ?_,
    ⟨?_, ?_, ?_⟩, ⟨?_, ?_, ?_, ?_⟩⟩
  · apply completeSELECT_arrangement
    rw [hcols, if_pos h1, suggestPlugins_true]
    simp only [List.append_assoc]
  · apply completeSELECT_arrangement
    rw [hcols, if_neg h1, if_pos h2]
    rfl
  · apply completeSELECT_arrangement
    have h2n : ¬ NoCaseInString up args "WHERE".toList = false := by
      rw [h2]; simp
    rw [hcols, if_neg h1, if_neg h2n, suggestFunctions_true]
    rfl
  · intro plugin hp
    rw [(console_completer_SELECT_FROM_space up hup config_obj scope).mem_iff, suggestPlugins_true]
    apply List.mem_append_right
    apply List.mem_append_left
    exact List.mem_map.mpr ⟨plugin, hp, rfl⟩
  · rw [(console_completer_SELECT_FROM_space up hup config_obj scope).mem_iff]
    intro h
    rcases List.mem_append.mp h with h | h
    · exact absurd (mem_suggestVars h).1 (by decide)
    · obtain ⟨n, hn⟩ := mem_suggestPlugins_true h
      exact append_bracket_ne n _ (by decide) hn.symm
  · intro hk s hs
    rw [(console_completer_SELECT_FROM_space up hup config_obj scope).mem_iff] at hs
    rcases List.mem_append.mp hs with h | h
    · exact fun e => hk (e ▸ (mem_suggestVars h).2)
    · obtain ⟨n, hn⟩ := mem_suggestPlugins_true h
      rw [hn]
      exact append_bracket_ne n _ (by decide)
  · rw [(console_completer_SELECT_WHERE_space up hup config_obj scope).mem_iff]
    simp [suggestLimit]
  · rw [(console_completer_SELECT_WHERE_space up hup config_obj scope).mem_iff]
    simp [suggestLimit]
  · rw [(console_completer_SELECT_WHERE_space up hup config_obj scope).mem_iff]
    intro h
    rcases List.mem_append.mp h with h | h
    · rcases List.mem_append.mp h with h | h
      · rcases mem_suggestLimit h with h | h
        · exact absurd h (by decide)
        · exact absurd h (by decide)
      · exact absurd (mem_suggestVars h).1 (by decide)
    · obtain ⟨n, hn⟩ := mem_suggestFunctions_true h
      exact append_bracket_ne n _ (by decide) hn.symm
  · intro hk s hs
    rw [(console_completer_SELECT_WHERE_space up hup config_obj scope).mem_iff] at hs
    rcases List.mem_append.mp hs with h | h
    · rcases List.mem_append.mp h with h | h
      · rcases mem_suggestLimit h with h | h
        · rw [h]; decide
        · rw [h]; decide
      · exact fun e => hk (e ▸ (mem_suggestVars h).2)
    · obtain ⟨n, hn⟩ := mem_suggestFunctions_true h
      rw [hn]
      exact append_bracket_ne n _ (by decide)

/-- C6, witness: the three cases on `SELECT * FROM `, `SELECT * FROM glob() `
and `SELECT * FROM glob() WHERE `, over the sample catalogs. -/
theorem completeSELECT_with_FROM_witness :
    NoCaseInString Char.toUpper (Split "SELECT * FROM ".toList) "FROM".toList = true ∧
      (console_completer Char.toUpper sampleConfig sampleScope "SELECT * FROM ".toList).map
        (fun s => s.Text) =
        ["Artifact.Linux.Sys(".toList, "config".toList, "env".toList, "glob(".toList] ∧
      (console_completer Char.toUpper sampleConfig sampleScope
        "SELECT * FROM glob() ".toList).map (fun s => s.Text) =
        ["LIMIT".toList, "ORDER BY".toList, "WHERE".toList] ∧
      (console_completer Char.toUpper sampleConfig sampleScope
        "SELECT * FROM glob() WHERE ".toList).map (fun s => s.Text) =
        ["LIMIT".toList, "ORDER BY".toList, "config".toList, "env".toList,
          "format(".toList] ∧
      suggestWHERE ∉
        console_completer Char.toUpper sampleConfig sampleScope "SELECT * FROM ".toList :=
  ⟨by decide, by decide, by decide, by decide,
    (completeSELECT_with_FROM Char.toUpper toUpper_fixesUpperASCII sampleConfig
      sampleScope (Split "SELECT * FROM ".toList) [] (by decide)).2.2.2.1.2.1⟩

/-! ## The LET and HELP classifiers -/

theorem GetWordBeforeCursor_append_of_space (x s : GoString) (h : ' ' ∈ s) :
    GetWordBeforeCursor (x ++ s) = GetWordBeforeCursor s := by
  obtain ⟨a, b, hab, hb⟩ := exists_last_space s h
  rw [hab, ← List.append_assoc, GetWordBeforeCursor_append_space _ b hb,
    GetWordBeforeCursor_append_space a b hb]

theorem console_completer_of_LET (up : Char → Char) (config_obj : Config)
    (scope : Scope) (t : GoString) (hlen : 1 < (Split t).length)
    (hkw : ToUpper up ((Split t).headD []) = "LET".toList) :
    console_completer up config_obj scope t =
      completeLET up config_obj scope (Split t) (GetWordBeforeCursor t) := by
  have ht : t ≠ [] := by
    rintro rfl
    simp [Split] at hlen
  have hne : ¬ ToUpper up ((Split t).headD []) = "SELECT".toList := by
    rw [hkw]; decide
  unfold console_completer
  rw [if_neg ht]
  simp only []
  rw [if_neg (by omega), if_neg hne, if_pos hkw]

theorem console_completer_of_HELP (up : Char → Char) (config_obj : Config)
    (scope : Scope) (t : GoString) (hlen : 1 < (Split t).length)
    (hkw : ToUpper up ((Split t).headD []) = "HELP".toList) :
    console_completer up config_obj scope t =
      completeHELP up config_obj scope (Split t) (GetWordBeforeCursor t) := by
  have ht : t ≠ [] := by
    rintro rfl
    simp [Split] at hlen
  have hne : ¬ ToUpper up ((Split t).headD []) = "SELECT".toList := by
    rw [hkw]; decide
  have hne2 : ¬ ToUpper up ((Split t).headD []) = "LET".toList := by
    rw [hkw]; decide
  unfold console_completer
  rw [if_neg ht]
  simp only []
  rw [if_neg (by omega), if_neg hne, if_neg hne2, if_pos hkw]

theorem console_completer_of_LET_SELECT (up : Char → Char) (config_obj : Config)
    (scope : Scope) (t : GoString) (hlen : 4 < (Split t).length)
    (hkw : ToUpper up ((Split t).headD []) = "LET".toList)
    (h4 : ToUpper up ((Split t).getD 3 []) = "SELECT".toList) :
    console_completer up config_obj scope t =
      completeSELECT up config_obj scope ((Split t).drop 3) (GetWordBeforeCursor t) := by
  rw [console_completer_of_LET up config_obj scope t (by omega) hkw]
  unfold completeLET
  rw [if_neg (by omega), if_neg (by omega), if_pos ⟨hlen, h4⟩]

/-- C7: a text of more than four tokens with first token LET and fourth token
SELECT is completed as the SELECT classifier completes the tokens from that
SELECT on, with the same word before the cursor; so for tokens `n` and `op`
without a space and a text `s` of at least two tokens starting with SELECT,
the text `LET n op s` has the completions of `s`. -/
theorem console_completer_LET_delegates (up : Char → Char) (hup : FixesUpperASCII up)
    (config_obj : Config) (scope : Scope) (n op s : GoString)
    (hn : ' ' ∉ n) (hop : ' ' ∉ op) (hs : 1 < (Split s).length)
    (hkw : ToUpper up ((Split s).headD []) = "SELECT".toList) :
    console_completer up config_obj scope
        ("LET ".toList ++ n ++ " ".toList ++ op ++ " ".toList ++ s) =
        console_completer up config_obj scope s ∧
      ∀ t : GoString, 4 < (Split t).length →
        ToUpper up ((Split t).headD []) = "LET".toList →
        ToUpper up ((Split t).getD 3 []) = "SELECT".toList →
        console_completer up config_obj scope t =
          completeSELECT up config_obj scope ((Split t).drop 3) (GetWordBeforeCursor t) := by
  refine ⟨?_, fun t h1 h2 h3 =>
    console_completer_of_LET_SELECT up config_obj scope t h1 h2 h3⟩
  have hLET : ToUpper up "LET".toList = "LET".toList := ToUpper_fixed up hup _ (by decide)
  have ht : "LET ".toList ++ n ++ " ".toList ++ op ++ " ".toList ++ s =
      "LET".toList ++ ' ' :: (n ++ ' ' :: (op ++ ' ' :: s)) := by
    simp
  have hsplit : Split ("LET".toList ++ ' ' :: (n ++ ' ' :: (op ++ ' ' :: s))) =
      "LET".toList :: n :: op :: Split s := by
    rw [Split_append_space, Split_append_space, Split_append_space,
      Split_of_no_space _ hn, Split_of_no_space _ hop,
      Split_of_no_space "LET".toList (by decide)]
    rfl
  have hsp : ' ' ∈ s := space_mem_of_one_lt_length s hs
  have hw : GetWordBeforeCursor ("LET".toList ++ ' ' :: (n ++ ' ' :: (op ++ ' ' :: s))) =
      GetWordBeforeCursor s := by
    have e : "LET".toList ++ ' ' :: (n ++ ' ' :: (op ++ ' ' :: s)) =
        ("LET".toList ++ ' ' :: (n ++ ' ' :: (op ++ [' ']))) ++ s := by simp
    rw [e, GetWordBeforeCursor_append_of_space _ s hsp]
  rw [ht, console_completer_of_LET_SELECT up config_obj scope _
      (by rw [hsplit]; simp only [List.length_cons]; omega)
      (by rw [hsplit]; exact hLET)
      (by
        rw [hsplit]
        cases hss : Split s with
        | nil => exact absurd hss (Split_ne_nil s)
        | cons a r => rw [hss] at hkw; exact hkw),
    hsplit, hw, console_completer_of_SELECT up config_obj scope s hs hkw]
  rfl

/-- C7, witness: `LET x = SELECT a, ` is completed as `SELECT a, ` is. -/
theorem console_completer_LET_delegates_witness :
    "LET ".toList ++ "x".toList ++ " ".toList ++ "=".toList ++ " ".toList ++
        "SELECT a, ".toList = "LET x = SELECT a, ".toList ∧
      (console_completer Char.toUpper sampleConfig sampleScope
        "LET x = SELECT a, ".toList).map (fun s => s.Text) =
        ["FROM".toList, "config".toList, "env".toList, "format(".toList] ∧
      console_completer Char.toUpper sampleConfig sampleScope
          ("LET ".toList ++ "x".toList ++ " ".toList ++ "=".toList ++ " ".toList ++
            "SELECT a, ".toList) =
        console_completer Char.toUpper sampleConfig sampleScope "SELECT a, ".toList :=
  ⟨by decide, by decide,
    (console_completer_LET_delegates Char.toUpper toUpper_fixesUpperASCII sampleConfig
      sampleScope "x".toList "=".toList "SELECT a, ".toList (by decide) (by decide)
      (by decide) (by decide)).1⟩

theorem getLast?_of_length_three {l : List GoString} (h : l.length = 3) :
    l.getLast? = some (l.getD 2 []) := by
  match l, h with
  | [_, _, _], _ => rfl

theorem getLast?_of_length_four {l : List GoString} (h : l.length = 4) :
    l.getLast? = some (l.getD 3 []) := by
  match l, h with
  | [_, _, _, _], _ => rfl

/-- C8: a text of exactly three tokens with first token LET is completed with
the assignment operators, `<=` before `=`, filtered by the third token; a text
of exactly four tokens with first token LET is completed with SELECT alone,
filtered by the fourth token. -/
theorem console_completer_LET_operators (up : Char → Char) (config_obj : Config)
    (scope : Scope) (t : GoString)
    (hkw : ToUpper up ((Split t).headD []) = "LET".toList) :
    ((Split t).length = 3 →
        console_completer up config_obj scope t =
          FilterHasPrefix up
            [⟨"<=".toList, "Materialize query in scope".toList⟩,
              ⟨"=".toList, "Store query in scope".toList⟩]
            ((Split t).getD 2 []) true) ∧
      ((Split t).length = 4 →
        console_completer up config_obj scope t =
          FilterHasPrefix up [⟨"SELECT".toList, "Start Query".toList⟩]
            ((Split t).getD 3 []) true) := by
  have hlast := Split_getLast t
  constructor
  · intro h3
    rw [getLast?_of_length_three h3] at hlast
    rw [console_completer_of_LET up config_obj scope t (by omega) hkw]
    unfold completeLET
    rw [if_pos h3, ← Option.some.inj hlast]
    rfl
  · intro h4
    rw [getLast?_of_length_four h4] at hlast
    rw [console_completer_of_LET up config_obj scope t (by omega) hkw]
    unfold completeLET
    rw [if_neg (by omega), if_pos h4, ← Option.some.inj hlast]
    rfl

/-- C8, witness: `let x ` offers `<=` then `=`, `let x <` offers `<=`, and
`let x = s` offers SELECT. -/
theorem console_completer_LET_operators_witness :
    (console_completer Char.toUpper sampleConfig sampleScope "let x ".toList).map
        (fun s => s.Text) = ["<=".toList, "=".toList] ∧
      (console_completer Char.toUpper sampleConfig sampleScope "let x <".toList).map
        (fun s => s.Text) = ["<=".toList] ∧
      console_completer Char.toUpper sampleConfig sampleScope "let x = s".toList =
        FilterHasPrefix Char.toUpper [⟨"SELECT".toList, "Start Query".toList⟩]
          ((Split "let x = s".toList).getD 3 []) true ∧
      (console_completer Char.toUpper sampleConfig sampleScope "let x = s".toList).map
        (fun s => s.Text) = ["SELECT".toList] :=
  ⟨by decide, by decide,
    (console_completer_LET_operators Char.toUpper sampleConfig sampleScope
      "let x = s".toList (by decide)).2 (by decide),
    by decide⟩

/-- C9: a text of at least two tokens with first token HELP is completed with
the function names, the plugin names and `Artifact.<name>` for every artifact
of the repository, none of them extended by `(`: the result is ordered by
`Text` and holds exactly those of these candidates whose upper-cased `Text`
starts with the upper-cased word before the cursor, each as often as it is a
candidate. -/
theorem console_completer_HELP (up : Char → Char) (config_obj : Config)
    (scope : Scope) (t : GoString) (hlen : 1 < (Split t).length)
    (hkw : ToUpper up ((Split t).headD []) = "HELP".toList) :
    (console_completer up config_obj scope t).Sorted textLE ∧
      (console_completer up config_obj scope t).Perm
        (List.filter
          (fun s => HasPrefix (ToUpper up s.Text) (ToUpper up (GetWordBeforeCursor t)))
          ((scope.Functions.map fun function => (⟨function.Name, function.Doc⟩ : Suggest)) ++
            (scope.Plugins.map fun plugin => (⟨plugin.Name, plugin.Doc⟩ : Suggest)) ++
            artifactSuggestions config_obj [])) := by
  have hcands : suggestFunctions scope false ++ suggestPlugins config_obj scope false =
      (scope.Functions.map fun function => ⟨function.Name, function.Doc⟩) ++
        (scope.Plugins.map fun plugin => ⟨plugin.Name, plugin.Doc⟩) ++
        artifactSuggestions config_obj [] := by
    rw [suggestPlugins_false]
    simp [suggestFunctions, List.append_assoc]
  rw [console_completer_of_HELP up config_obj scope t hlen hkw]
  unfold completeHELP
  simp only []
  rw [hcands, ← FilterHasPrefix_eq_filter]
  exact FilterHasPrefix_sortSlice_arrangement up _ _

/-- C9, witness: `help ` offers every function, plugin and artifact of the
sample catalogs, and `help g` those that start with `g`. -/
theorem console_completer_HELP_witness :
    (console_completer Char.toUpper sampleConfig sampleScope "help ".toList).map
        (fun s => s.Text) =
        ["Artifact.Linux.Sys".toList, "format".toList, "glob".toList] ∧
      (console_completer Char.toUpper sampleConfig sampleScope "help g".toList).map
        (fun s => s.Text) = ["glob".toList] ∧
      (console_completer Char.toUpper sampleConfig sampleScope "help g".toList).Sorted
        textLE ∧
      (console_completer Char.toUpper sampleConfig sampleScope "help g".toList).Perm
        (List.filter
          (fun s => HasPrefix (ToUpper Char.toUpper s.Text)
            (ToUpper Char.toUpper (GetWordBeforeCursor "help g".toList)))
          ((sampleScope.Functions.map fun function =>
              (⟨function.Name, function.Doc⟩ : Suggest)) ++
            (sampleScope.Plugins.map fun plugin => (⟨plugin.Name, plugin.Doc⟩ : Suggest)) ++
            artifactSuggestions sampleConfig [])) :=
  ⟨by decide, by decide,
    console_completer_HELP Char.toUpper sampleConfig sampleScope "help g".toList
      (by decide) (by decide)⟩

end Console

namespace Console

/-! ## Lines the dispatcher ignores, and HELP lines -/

theorem ToUpper_HELP (up : Char → Char) (hup : FixesUpperASCII up) :
    ToUpper up "HELP".toList = "HELP".toList :=
  ToUpper_fixed up hup _ (by decide)

theorem Split_headD_of_space (cs : GoString) : (Split (' ' :: cs)).headD [] = [] := by
  simp [Split]

/-- C11: `console_executor` on the empty text, and on a text whose first token
is none of SELECT, LET, HELP in any letter-case (a text that starts with a
space among them), returns the state as it was and no effect: the history is
unchanged, and neither `executeVQL`, which always leaves an effect, nor
`executeHelp`, which always changes the history, was run. -/
theorem console_executor_ignores_other_lines {VQL : Type} (up : Char → Char)
    (Parse : GoString → Except GoString VQL) (console_format : GoString)
    (config_obj : Config) (scope : Scope) (state : consoleState) (t : GoString)
    (h1 : ToUpper up ((Split t).headD []) ≠ "SELECT".toList)
    (h2 : ToUpper up ((Split t).headD []) ≠ "LET".toList)
    (h3 : ToUpper up ((Split t).headD []) ≠ "HELP".toList) :
    console_executor up Parse console_format config_obj scope state t = (state, []) ∧
      console_executor up Parse console_format config_obj scope state [] = (state, []) ∧
      (∀ cs : GoString,
        console_executor up Parse console_format config_obj scope state (' ' :: cs) =
          (state, [])) ∧
      (executeVQL Parse console_format state t).2 ≠ [] ∧
      (executeHelp up config_obj scope state t : consoleState × List (Effect VQL)).1 ≠
        state := by
  have hgen : ∀ u : GoString,
      ToUpper up ((Split u).headD []) ≠ "SELECT".toList →
      ToUpper up ((Split u).headD []) ≠ "LET".toList →
      ToUpper up ((Split u).headD []) ≠ "HELP".toList →
      console_executor up Parse console_format config_obj scope state u = (state, []) := by
    intro u g1 g2 g3
    unfold console_executor
    split
    · rfl
    · simp only []
      rw [if_neg (by rintro (h | h); exact g1 h; exact g2 h), if_neg g3]
  refine ⟨hgen t h1 h2 h3, by simp [console_executor], fun cs => ?_, ?_, ?_⟩
  · apply hgen <;> rw [Split_headD_of_space] <;> simp [ToUpper]
  · unfold executeVQL
    split <;> simp
  · unfold executeHelp
    intro h
    have hlen := congrArg (fun s : consoleState => s.History.length) h
    simp at hlen

/-- C11, witness: the line `EXPLAIN x` and the line ` SELECT 1`, which starts
with a space, leave a state with one history entry as it was. -/
theorem console_executor_ignores_other_lines_witness :
    console_executor Char.toUpper sampleParse "json".toList sampleConfig sampleScope
        ⟨["HELP glob".toList]⟩ "EXPLAIN x".toList = (⟨["HELP glob".toList]⟩, []) ∧
      console_executor Char.toUpper sampleParse "json".toList sampleConfig sampleScope
        ⟨["HELP glob".toList]⟩ " SELECT 1".toList = (⟨["HELP glob".toList]⟩, []) :=
  ⟨(console_executor_ignores_other_lines Char.toUpper sampleParse "json".toList
      sampleConfig sampleScope ⟨["HELP glob".toList]⟩ "EXPLAIN x".toList
      (by decide) (by decide) (by decide)).1,
    by decide⟩

/-- C12: for a line whose first token is HELP in any letter-case,
`console_executor` runs `executeHelp`, and the history afterwards is the
history before followed by that line, once and verbatim, whatever the
catalogs hold and whatever the lookup prints. -/
theorem console_executor_help_history {VQL : Type} (up : Char → Char)
    (Parse : GoString → Except GoString VQL) (console_format : GoString)
    (config_obj : Config) (scope : Scope) (state : consoleState) (t : GoString)
    (hkw : ToUpper up ((Split t).headD []) = "HELP".toList) :
    (console_executor up Parse console_format config_obj scope state t).1.History =
        state.History ++ [t] ∧
      console_executor up Parse console_format config_obj scope state t =
        (⟨state.History ++ [t]⟩, helpLoop up config_obj scope (Split t)) := by
  have ht : t ≠ [] := by
    rintro rfl
    simp [Split, ToUpper] at hkw
  have hne : ¬ (ToUpper up ((Split t).headD []) = "SELECT".toList ∨
      ToUpper up ((Split t).headD []) = "LET".toList) := by
    rw [hkw]; decide
  have h : console_executor up Parse console_format config_obj scope state t =
      (⟨state.History ++ [t]⟩, helpLoop up config_obj scope (Split t)) := by
    unfold console_executor
    rw [if_neg ht]
    simp only []
    rw [if_neg hne, if_pos hkw]
    rfl
  exact ⟨by rw [h], h⟩

/-- C12, witness: `help glob` succeeds and `help nosuch` reports an unknown
name; both lines become the last entry of the history. -/
theorem console_executor_help_history_witness :
    (console_executor Char.toUpper sampleParse "json".toList sampleConfig sampleHelpScope
        ⟨["SELECT 1".toList]⟩ "help glob".toList).1.History =
        ["SELECT 1".toList, "help glob".toList] ∧
      (console_executor Char.toUpper sampleParse "json".toList sampleConfig sampleHelpScope
        ⟨["SELECT 1".toList]⟩ "help nosuch".toList) =
        (⟨["SELECT 1".toList, "help nosuch".toList]⟩,
          [Effect.Printf "Unknown function or plugin.\n".toList []]) :=
  ⟨(console_executor_help_history Char.toUpper sampleParse "json".toList sampleConfig
      sampleHelpScope ⟨["SELECT 1".toList]⟩ "help glob".toList (by decide)).1,
    by decide⟩

/-! ## Help resolution -/

theorem helpLoop_cons {VQL : Type} (up : Char → Char) (config_obj : Config)
    (scope : Scope) (arg : GoString) (rest : List GoString) :
    (helpLoop up config_obj scope (arg :: rest) : List (Effect VQL)) =
      if arg = [] ∨ ToUpper up arg = "HELP".toList then
        helpLoop up config_obj scope rest
      else if HasPrefix arg "Artifact.".toList then
        match config_obj.GetGlobalRepository with
        | none => []
        | some repository =>
          match repository.Get (TrimPrefix arg "Artifact.".toList) with
          | none => [Effect.Printf "Unknown artifact\n".toList []]
          | some artifact => [Effect.Printf artifact.Raw []]
      else
        match scope.Functions.find? fun function => decide (function.Name = arg) with
        | some function =>
          Effect.Printf "Function %v:\n%v\n\n".toList [function.Name, function.Doc] ::
            (match scope.TypeMapGet function.ArgType with
            | some arg_type => [Effect.renderArgs arg_type]
            | none => [])
        | none =>
          match scope.Plugins.find? fun plugin => decide (plugin.Name = arg) with
          | some plugin =>
            Effect.Printf "VQL Plugin %v:\n%v\n\n".toList [plugin.Name, plugin.Doc] ::
              (match scope.TypeMapGet plugin.ArgType with
              | some arg_type => [Effect.renderArgs arg_type]
              | none => [])
          | none => helpLoop up config_obj scope rest := by
  rw [helpLoop]

theorem helpLoop_cons_of_not_resolves {VQL : Type} (up : Char → Char)
    (config_obj : Config) (scope : Scope) (arg : GoString) (rest : List GoString)
    (h : resolvesToken up scope arg = false) :
    (helpLoop up config_obj scope (arg :: rest) : List (Effect VQL)) =
      helpLoop up config_obj scope rest := by
  rw [helpLoop_cons]
  by_cases hs : arg = [] ∨ ToUpper up arg = "HELP".toList
  · rw [if_pos hs]
  · rw [if_neg hs]
    have hsk : skipsToken up arg = false := by
      unfold skipsToken
      exact decide_eq_false hs
    simp only [resolvesToken, hsk, Bool.not_false, Bool.true_and, Bool.or_eq_false_iff] at h
    obtain ⟨⟨hA, hF⟩, hP⟩ := h
    rw [if_neg (by rw [hA]; simp)]
    have hF2 : scope.Functions.find? (fun function => decide (function.Name = arg)) = none := by
      rw [List.find?_eq_none]
      intro f hf
      have := List.any_eq_false.mp hF f hf
      simpa using this
    have hP2 : scope.Plugins.find? (fun plugin => decide (plugin.Name = arg)) = none := by
      rw [List.find?_eq_none]
      intro f hf
      have := List.any_eq_false.mp hP f hf
      simpa using this
    rw [hF2, hP2]

theorem helpLoop_cons_of_resolves {VQL : Type} (up : Char → Char)
    (config_obj : Config) (scope : Scope) (arg : GoString) (rest : List GoString)
    (h : resolvesToken up scope arg = true) :
    (helpLoop up config_obj scope (arg :: rest) : List (Effect VQL)) =
      helpLoop up config_obj scope [arg] := by
  rw [helpLoop_cons, helpLoop_cons]
  simp only [resolvesToken, Bool.and_eq_true, Bool.not_eq_true', Bool.or_eq_true] at h
  obtain ⟨hsk, hres⟩ := h
  have hs : ¬ (arg = [] ∨ ToUpper up arg = "HELP".toList) := by
    unfold skipsToken at hsk
    exact of_decide_eq_false hsk
  rw [if_neg hs, if_neg hs]
  by_cases hA : HasPrefix arg "Artifact.".toList = true
  · rw [if_pos hA, if_pos hA]
  · rw [if_neg hA, if_neg hA]
    cases hF : scope.Functions.find? (fun function => decide (function.Name = arg)) with
    | some f => rfl
    | none =>
      cases hP : scope.Plugins.find? (fun plugin => decide (plugin.Name = arg)) with
      | some p => rfl
      | none =>
        exfalso
        rcases hres with (hres | hres) | hres
        · exact hA hres
        · obtain ⟨f, hf, hfn⟩ := List.any_eq_true.mp hres
          have := List.find?_eq_none.mp hF f hf
          exact this hfn
        · obtain ⟨f, hf, hfn⟩ := List.any_eq_true.mp hres
          have := List.find?_eq_none.mp hP f hf
          exact this hfn

theorem helpLoop_of_none_resolves {VQL : Type} (up : Char → Char)
    (config_obj : Config) (scope : Scope) :
    ∀ args : List GoString, (∀ a ∈ args, resolvesToken up scope a = false) →
      (helpLoop up config_obj scope args : List (Effect VQL)) =
        [Effect.Printf "Unknown function or plugin.\n".toList []]
  | [], _ => by rw [helpLoop]
  | a :: rest, h => by
    rw [helpLoop_cons_of_not_resolves up config_obj scope a rest
      (h a (List.mem_cons_self a rest))]
    exact helpLoop_of_none_resolves up config_obj scope rest
      fun b hb => h b (List.mem_cons_of_mem a hb)

theorem helpLoop_append_of_none_resolves {VQL : Type} (up : Char → Char)
    (config_obj : Config) (scope : Scope) (rest : List GoString) :
    ∀ pre : List GoString, (∀ a ∈ pre, resolvesToken up scope a = false) →
      (helpLoop up config_obj scope (pre ++ rest) : List (Effect VQL)) =
        helpLoop up config_obj scope rest
  | [], _ => rfl
  | a :: pre, h => by
    rw [List.cons_append, helpLoop_cons_of_not_resolves up config_obj scope a _
      (h a (List.mem_cons_self a pre))]
    exact helpLoop_append_of_none_resolves up config_obj scope rest pre
      fun b hb => h b (List.mem_cons_of_mem a hb)

/-- C13, as amended: help resolution uses only the first token at which the
loop stops, a token that is not empty, is not HELP, and has the form
`Artifact.<name>` or is the exact name of a function or of a plugin.  The
output for the whole token list is the output for that token alone, whatever
tokens follow it; tokens before it that name nothing are passed over; and when
no token is of this kind the output is `Unknown function or plugin.` -/
theorem helpLoop_first_resolving_token {VQL : Type} (up : Char → Char)
    (config_obj : Config) (scope : Scope) (before : List GoString) (tok : GoString)
    (after : List GoString)
    (hbefore : ∀ a ∈ before, resolvesToken up scope a = false)
    (htok : resolvesToken up scope tok = true) :
    (helpLoop up config_obj scope (before ++ tok :: after) : List (Effect VQL)) =
        helpLoop up config_obj scope [tok] ∧
      (helpLoop up config_obj scope before : List (Effect VQL)) =
        [Effect.Printf "Unknown function or plugin.\n".toList []] := by
  refine ⟨?_, helpLoop_of_none_resolves up config_obj scope before hbefore⟩
  rw [helpLoop_append_of_none_resolves up config_obj scope _ before hbefore,
    helpLoop_cons_of_resolves up config_obj scope tok after htok]

/-- C13, witness: in `HELP nosuch format glob` the tokens `HELP` and `nosuch`
are passed over, `format` is resolved and `glob` is never looked at. -/
theorem helpLoop_first_resolving_token_witness :
    (helpLoop Char.toUpper sampleConfig sampleHelpScope
        (["HELP".toList, "nosuch".toList] ++ "format".toList :: ["glob".toList]) :
        List (Effect GoString)) =
        helpLoop Char.toUpper sampleConfig sampleHelpScope ["format".toList] ∧
      (helpLoop Char.toUpper sampleConfig sampleHelpScope ["format".toList] :
        List (Effect GoString)) =
        [Effect.Printf "Function %v:\n%v\n\n".toList
          ["format".toList, "Format a string".toList]] :=
  ⟨(helpLoop_first_resolving_token Char.toUpper sampleConfig sampleHelpScope
      ["HELP".toList, "nosuch".toList] "format".toList ["glob".toList]
      (by decide) (by decide)).1,
    by decide⟩

/-- C13, counterexample: the first token of `HELP nosuch format` that is
neither empty nor HELP is `nosuch`, which names nothing; resolved alone it
gives `Unknown function or plugin.`, yet the output for the whole list is the
help of the function `format`, named by a later token. -/
theorem helpLoop_later_token_counterexample :
    firstNonSkipped Char.toUpper ["HELP".toList, "nosuch".toList, "format".toList] =
        some "nosuch".toList ∧
      (helpLoop Char.toUpper sampleConfig sampleHelpScope ["nosuch".toList] :
        List (Effect GoString)) =
        [Effect.Printf "Unknown function or plugin.\n".toList []] ∧
      (helpLoop Char.toUpper sampleConfig sampleHelpScope
        (Split "HELP nosuch format".toList) : List (Effect GoString)) =
        [Effect.Printf "Function %v:\n%v\n\n".toList
          ["format".toList, "Format a string".toList]] ∧
      (helpLoop Char.toUpper sampleConfig sampleHelpScope
        (Split "HELP nosuch format".toList) : List (Effect GoString)) ≠
        helpLoop Char.toUpper sampleConfig sampleHelpScope ["nosuch".toList] := by
  refine ⟨by decide, by decide, by decide, by decide⟩

theorem helpLoop_HELP_name {VQL : Type} (up : Char → Char) (hup : FixesUpperASCII up)
    (config_obj : Config) (scope : Scope) (n : GoString)
    (hn : n ≠ []) (hH : ToUpper up n ≠ "HELP".toList)
    (hA : HasPrefix n "Artifact.".toList = false) :
    (helpLoop up config_obj scope ["HELP".toList, n] : List (Effect VQL)) =
      match scope.Functions.find? fun function => decide (function.Name = n) with
      | some function =>
        Effect.Printf "Function %v:\n%v\n\n".toList [function.Name, function.Doc] ::
          (match scope.TypeMapGet function.ArgType with
          | some arg_type => [Effect.renderArgs arg_type]
          | none => [])
      | none =>
        match scope.Plugins.find? fun plugin => decide (plugin.Name = n) with
        | some plugin =>
          Effect.Printf "VQL Plugin %v:\n%v\n\n".toList [plugin.Name, plugin.Doc] ::
            (match scope.TypeMapGet plugin.ArgType with
            | some arg_type => [Effect.renderArgs arg_type]
            | none => [])
        | none => [Effect.Printf "Unknown function or plugin.\n".toList []] := by
  have hs : ¬ (n = [] ∨ ToUpper up n = "HELP".toList) := by
    rintro (h | h)
    · exact hn h
    · exact hH h
  rw [helpLoop_cons, if_pos (Or.inr (ToUpper_HELP up hup)), helpLoop_cons, if_neg hs,
    if_neg (by rw [hA]; simp), helpLoop]

theorem find?_name_of_exists {α : Type} (l : List α) (name : α → GoString) (n : GoString)
    (h : ∃ f ∈ l, name f = n) :
    ∃ f ∈ l, name f = n ∧ l.find? (fun g => decide (name g = n)) = some f := by
  cases hf : l.find? (fun g => decide (name g = n)) with
  | none =>
    obtain ⟨f, hfl, hfn⟩ := h
    have := List.find?_eq_none.mp hf f hfl
    simp [hfn] at this
  | some f =>
    have h1 := List.find?_some hf
    exact ⟨f, List.mem_of_find?_eq_some hf, by simpa using h1, rfl⟩

theorem find?_name_eq_none {α : Type} (l : List α) (name : α → GoString) (n : GoString)
    (h : ∀ f ∈ l, name f ≠ n) : l.find? (fun g => decide (name g = n)) = none := by
  rw [List.find?_eq_none]
  intro f hf
  simpa using h f hf

/-- C14: for the tokens HELP and `n`, where `n` is not empty, is not HELP and
does not start with `Artifact.`, the help loop prints the name and doc of a
function named exactly `n` when there is one, also when a plugin has the same
name; otherwise the name and doc of a plugin named exactly `n`; and it reports
`Unknown function or plugin.` if and only if neither catalog has an entry
named exactly `n`. -/
theorem helpLoop_single_name {VQL : Type} (up : Char → Char) (hup : FixesUpperASCII up)
    (config_obj : Config) (scope : Scope) (n : GoString)
    (hn : n ≠ []) (hH : ToUpper up n ≠ "HELP".toList)
    (hA : HasPrefix n "Artifact.".toList = false) :
    ((∃ f ∈ scope.Functions, f.Name = n) →
        ∃ f ∈ scope.Functions, f.Name = n ∧
          (helpLoop up config_obj scope ["HELP".toList, n] : List (Effect VQL)) =
            Effect.Printf "Function %v:\n%v\n\n".toList [n, f.Doc] ::
              (match scope.TypeMapGet f.ArgType with
              | some arg_type => [Effect.renderArgs arg_type]
              | none => [])) ∧
      ((∀ f ∈ scope.Functions, f.Name ≠ n) → (∃ p ∈ scope.Plugins, p.Name = n) →
        ∃ p ∈ scope.Plugins, p.Name = n ∧
          (helpLoop up config_obj scope ["HELP".toList, n] : List (Effect VQL)) =
            Effect.Printf "VQL Plugin %v:\n%v\n\n".toList [n, p.Doc] ::
              (match scope.TypeMapGet p.ArgType with
              | some arg_type => [Effect.renderArgs arg_type]
              | none => [])) ∧
      ((Effect.Printf "Unknown function or plugin.\n".toList [] : Effect VQL) ∈
          (helpLoop up config_obj scope ["HELP".toList, n] : List (Effect VQL)) ↔
        (∀ f ∈ scope.Functions, f.Name ≠ n) ∧ (∀ p ∈ scope.Plugins, p.Name ≠ n)) := by
  have hloop := @helpLoop_HELP_name VQL up hup config_obj scope n hn hH hA
  refine ⟨fun hex => ?_, fun hno hex => ?_, ?_⟩
  · obtain ⟨f, hfl, hfn, hfind⟩ := find?_name_of_exists scope.Functions (fun g => g.Name) n hex
    refine ⟨f, hfl, hfn, ?_⟩
    rw [hloop, hfind]
    simp only [hfn]
  · obtain ⟨q, hql, hqn, hfind⟩ := find?_name_of_exists scope.Plugins (fun g => g.Name) n hex
    refine ⟨q, hql, hqn, ?_⟩
    rw [hloop, find?_name_eq_none scope.Functions (fun g => g.Name) n hno, hfind]
    simp only [hqn]
  · rw [hloop]
    constructor
    · intro hmem
      by_contra hcon
      have hex : (∃ f ∈ scope.Functions, f.Name = n) ∨ (∃ q ∈ scope.Plugins, q.Name = n) := by
        by_contra hnone
        apply hcon
        constructor
        · intro f hf hfn
          exact hnone (Or.inl ⟨f, hf, hfn⟩)
        · intro q hq hqn
          exact hnone (Or.inr ⟨q, hq, hqn⟩)
      by_cases hF : ∃ f ∈ scope.Functions, f.Name = n
      · obtain ⟨f, _, _, hfind⟩ :=
          find?_name_of_exists scope.Functions (fun g => g.Name) n hF
        rw [hfind] at hmem
        cases hT : scope.TypeMapGet f.ArgType <;> simp [hT] at hmem
      · have hP : ∃ q ∈ scope.Plugins, q.Name = n := hex.resolve_left hF
        have hFn : ∀ f ∈ scope.Functions, f.Name ≠ n := fun f hf hfn => hF ⟨f, hf, hfn⟩
        obtain ⟨q, _, _, hfind⟩ :=
          find?_name_of_exists scope.Plugins (fun g => g.Name) n hP
        rw [find?_name_eq_none scope.Functions (fun g => g.Name) n hFn, hfind] at hmem
        cases hT : scope.TypeMapGet q.ArgType <;> simp [hT] at hmem
    · rintro ⟨hF, hP⟩
      rw [find?_name_eq_none scope.Functions (fun g => g.Name) n hF,
        find?_name_eq_none scope.Plugins (fun g => g.Name) n hP]
      exact List.mem_singleton.mpr rfl

/-- C14, witness: over the sample scope `count` is both a function and a
plugin and the function is shown; `glob` is a plugin only; `nosuch` is
neither. -/
theorem helpLoop_single_name_witness :
    (helpLoop Char.toUpper sampleConfig sampleHelpScope ["HELP".toList, "count".toList] :
        List (Effect GoString)) =
        [Effect.Printf "Function %v:\n%v\n\n".toList ["count".toList, "Count rows".toList]] ∧
      (helpLoop Char.toUpper sampleConfig sampleHelpScope ["HELP".toList, "glob".toList] :
        List (Effect GoString)) =
        [Effect.Printf "VQL Plugin %v:\n%v\n\n".toList ["glob".toList, "Find files".toList],
          Effect.renderArgs sampleGlobArgs] ∧
      ((Effect.Printf "Unknown function or plugin.\n".toList [] : Effect GoString) ∈
          (helpLoop Char.toUpper sampleConfig sampleHelpScope
            ["HELP".toList, "nosuch".toList] : List (Effect GoString)) ↔
        (∀ f ∈ sampleHelpScope.Functions, f.Name ≠ "nosuch".toList) ∧
          (∀ q ∈ sampleHelpScope.Plugins, q.Name ≠ "nosuch".toList)) :=
  ⟨by decide, by decide,
    (helpLoop_single_name Char.toUpper toUpper_fixesUpperASCII sampleConfig sampleHelpScope
      "nosuch".toList (by decide) (by decide) (by decide)).2.2⟩

/-! ## Help on an artifact -/

/-- C15, at the failing input: the artifact `Demo` is in the repository and its
source holds `%v`; `executeHelp` hands the source to `fmt.Printf` as the
format, and what is printed has `%!v(MISSING)` in place of `%v`, so it is not
the source character for character. -/
theorem helpLoop_artifact_percent :
    (helpLoop Char.toUpper samplePercentConfig sampleHelpScope
        (Split "HELP Artifact.Demo".toList) : List (Effect GoString)) =
        [Effect.Printf "LET x = format(format='%v rows', args=n)\n".toList []] ∧
      printed (helpLoop Char.toUpper samplePercentConfig sampleHelpScope
        (Split "HELP Artifact.Demo".toList) : List (Effect GoString)) =
        some "LET x = format(format='%!v(MISSING) rows', args=n)\n".toList ∧
      printed (helpLoop Char.toUpper samplePercentConfig sampleHelpScope
        (Split "HELP Artifact.Demo".toList) : List (Effect GoString)) ≠
        some "LET x = format(format='%v rows', args=n)\n".toList := by
  refine ⟨by decide, by decide, by decide⟩

theorem Sprintf_of_no_percent : ∀ s : GoString, '%' ∉ s → Sprintf s [] = some s
  | [], _ => rfl
  | [c], h => by
    have hc : ¬ c = '%' := fun e => h (by simp [e])
    simp [Sprintf, hc]
  | c :: v :: rest, h => by
    have hc : ¬ c = '%' := fun e => h (by simp [e])
    have ih := Sprintf_of_no_percent (v :: rest) fun e => h (List.mem_cons_of_mem c e)
    simp [Sprintf, hc, ih]

/-! ## The argument table -/

/-- Where the value after the first `doc=` has at least two characters and does
not start with a line feed, the doc column is that value. -/
theorem docColumn_eq_docValue : ∀ tag : GoString,
    2 ≤ (docValue tag).length → (docValue tag).head? ≠ some '\n' →
      docColumn tag = docValue tag
  | [], h, _ => by simp [docValue] at h
  | c :: cs, h, hnl => by
    unfold docColumn FindDocSubmatch
    unfold docValue at h hnl ⊢
    by_cases hp : HasPrefix (c :: cs) "doc=".toList = true
    · rw [if_pos hp] at h hnl ⊢
      unfold docMatchAt
      rw [if_pos hp]
      cases hd : (c :: cs).drop 4 with
      | nil => rw [hd] at h; simp at h
      | cons d rest =>
        rw [hd] at h hnl
        by_cases hdc : d = ','
        · subst hdc
          simp at h
        · have hdn : d ≠ '\n' := by
            intro e
            subst e
            simp [List.takeWhile] at hnl
          have htw : List.takeWhile (fun x => decide (x ≠ ',')) (d :: rest) =
              d :: List.takeWhile (fun x => decide (x ≠ ',')) rest := by
            simp [List.takeWhile, hdc]
          rw [htw] at h ⊢
          have hne : List.takeWhile (fun x => decide (x ≠ ',')) rest ≠ [] := by
            intro e
            rw [e] at h
            simp at h
          simp only []
          rw [if_pos ⟨hdn, hne⟩]
    · have hdm : docMatchAt (c :: cs) = none := by
        unfold docMatchAt
        rw [if_neg hp]
      rw [if_neg hp] at h hnl ⊢
      rw [hdm]
      exact docColumn_eq_docValue cs h hnl

/-- C16, at the failing input: in the tag `doc=x` the value after `doc=` is the
single character `x`, and the doc column that `renderArgs` prints for the field
is empty; in the tag `doc=,required` the value is empty and the doc column is
`,required`. -/
theorem renderArgs_doc_single_character :
    docValue "doc=x".toList = "x".toList ∧
      docColumn "doc=x".toList = [] ∧
      (renderArgs ⟨[("accessor".toList, ⟨"string".toList, false, "doc=x".toList⟩)]⟩ :
        List (Effect GoString)) =
        [Effect.Printf "Args:\n".toList [],
          Effect.Printf "  %v: %v (%v) %v %v\n".toList
            ["accessor".toList, [], "string".toList, [], []]] ∧
      docValue "doc=,required".toList = [] ∧
      docColumn "doc=,required".toList = ",required".toList := by
  refine ⟨by decide, by decide, by decide, by decide, by decide⟩

/-! ## The required column -/

theorem takeWhile_comma_eq_iff : ∀ (w s : GoString), ',' ∉ w →
    (s.takeWhile (fun x => decide (x ≠ ',')) = w ↔
      w.isPrefixOf s = true ∧
        (s.drop w.length = [] ∨ (s.drop w.length).head? = some ','))
  | [], [], _ => by simp
  | [], b :: s, _ => by
    by_cases hb : b = ','
    · simp [List.takeWhile, hb]
    · simp [List.takeWhile, hb]
  | a :: w, [], _ => by simp
  | a :: w, b :: s, h => by
    have ha : a ≠ ',' := fun e => h (by simp [e])
    have hw : ',' ∉ w := fun e => h (List.mem_cons_of_mem a e)
    have ih := takeWhile_comma_eq_iff w s hw
    by_cases hab : a = b
    · subst hab
      simp only [List.takeWhile, ha, ne_eq, not_false_eq_true, decide_True, List.cons.injEq,
        true_and, List.isPrefixOf, beq_self_eq_true, Bool.true_and, List.length_cons,
        List.drop_succ_cons]
      exact ih
    · have hba : ¬ b = a := fun e => hab e.symm
      constructor
      · intro e
        by_cases hb : b = ','
        · simp [List.takeWhile, hb] at e
        · simp [List.takeWhile, hb] at e
          exact absurd e.1 hba
      · intro e
        simp [List.isPrefixOf, hab] at e

theorem SplitComma_ne_nil : ∀ s : GoString, SplitComma s ≠ []
  | [] => by simp [SplitComma]
  | c :: cs => by
    unfold SplitComma
    split
    · simp
    · split <;> simp

theorem SplitComma_cons_comma (cs : GoString) :
    SplitComma (',' :: cs) = [] :: SplitComma cs := by
  rw [SplitComma, if_pos rfl]

theorem SplitComma_cons_other (c : Char) (cs : GoString) (hc : c ≠ ',') :
    ∃ w ws, SplitComma cs = w :: ws ∧ SplitComma (c :: cs) = (c :: w) :: ws := by
  cases hs : SplitComma cs with
  | nil => exact absurd hs (SplitComma_ne_nil cs)
  | cons w ws =>
    refine ⟨w, ws, rfl, ?_⟩
    rw [SplitComma, if_neg hc, hs]

theorem SplitComma_head : ∀ s : GoString,
    (SplitComma s).head? = some (s.takeWhile fun x => decide (x ≠ ','))
  | [] => rfl
  | c :: cs => by
    by_cases hc : c = ','
    · subst hc
      rw [SplitComma_cons_comma]
      simp [List.takeWhile]
    · obtain ⟨w, ws, h1, h2⟩ := SplitComma_cons_other c cs hc
      have ih := SplitComma_head cs
      rw [h1] at ih
      rw [h2]
      simp only [List.head?_cons, Option.some.injEq] at ih ⊢
      simp [List.takeWhile, hc, ih]

theorem mem_iff_head?_or_tail {α : Type} (x : α) (l : List α) :
    x ∈ l ↔ l.head? = some x ∨ x ∈ l.tail := by
  cases l with
  | nil => simp
  | cons a r =>
    simp only [List.mem_cons, List.head?_cons, Option.some.injEq, List.tail_cons]
    constructor
    · rintro (h | h)
      · exact Or.inl h.symm
      · exact Or.inr h
    · rintro (h | h)
      · exact Or.inl h.symm
      · exact Or.inr h

theorem requiredMatchAt_eq_none_iff (s : GoString) :
    requiredMatchAt s = none ↔
      ¬ s.takeWhile (fun x => decide (x ≠ ',')) = "required".toList := by
  rw [takeWhile_comma_eq_iff _ s (by decide)]
  have hl : "required".toList.length = 8 := rfl
  rw [hl]
  unfold requiredMatchAt HasPrefix
  by_cases hp : "required".toList.isPrefixOf s = true
  · rw [if_pos hp]
    cases hd : s.drop 8 with
    | nil =>
      constructor
      · intro h; cases h
      · intro h; exact absurd ⟨hp, Or.inl rfl⟩ h
    | cons c r =>
      by_cases hc : c = ','
      · subst hc
        simp only [if_true]
        constructor
        · intro h; cases h
        · intro h; exact absurd ⟨hp, Or.inr rfl⟩ h
      · simp only [hc, if_false, true_iff]
        rintro ⟨_, h | h⟩
        · cases h
        · simp only [List.head?_cons, Option.some.injEq] at h
          exact hc h
  · rw [if_neg hp]
    simp only [true_iff]
    rintro ⟨h, _⟩
    exact hp h

theorem requiredMatchAt_ne_nil (s m : GoString) (h : requiredMatchAt s = some m) :
    m ≠ [] := by
  unfold requiredMatchAt at h
  split at h
  · split at h
    · cases h; decide
    · split at h
      · cases h; decide
      · cases h
  · cases h

theorem scanRequired_cons_other (c : Char) (cs : GoString) (hc : c ≠ ',') :
    scanRequired (c :: cs) = scanRequired cs := by
  rw [scanRequired, if_neg hc]

theorem scanRequired_cons_comma (cs : GoString) :
    scanRequired (',' :: cs) =
      match requiredMatchAt cs with
      | some m => ',' :: m
      | none => scanRequired cs := by
  rw [scanRequired, if_pos rfl]

theorem mem_tail_SplitComma_iff : ∀ s : GoString,
    "required".toList ∈ (SplitComma s).tail ↔ scanRequired s ≠ []
  | [] => by simp [SplitComma, scanRequired]
  | c :: cs => by
    have ih := mem_tail_SplitComma_iff cs
    by_cases hc : c = ','
    · subst hc
      rw [SplitComma_cons_comma, List.tail_cons, scanRequired_cons_comma,
        mem_iff_head?_or_tail, SplitComma_head, ih]
      cases hm : requiredMatchAt cs with
      | none =>
        have := (requiredMatchAt_eq_none_iff cs).mp hm
        simp only [Option.some.injEq, this, false_or]
      | some m =>
        have hne : ¬ requiredMatchAt cs = none := by rw [hm]; simp
        have := not_not.mp (mt (requiredMatchAt_eq_none_iff cs).mpr hne)
        simp only [Option.some.injEq, this, true_or, true_iff]
        exact List.cons_ne_nil _ _
    · obtain ⟨w, ws, h1, h2⟩ := SplitComma_cons_other c cs hc
      rw [h1] at ih
      rw [h2, scanRequired_cons_other c cs hc]
      exact ih

theorem FindRequired_ne_nil_iff (tag : GoString) :
    FindRequired tag ≠ [] ↔ "required".toList ∈ SplitComma tag := by
  rw [mem_iff_head?_or_tail, SplitComma_head, mem_tail_SplitComma_iff]
  unfold FindRequired
  cases hm : requiredMatchAt tag with
  | none =>
    have := (requiredMatchAt_eq_none_iff tag).mp hm
    simp only [Option.some.injEq, this, false_or]
  | some m =>
    have hne : ¬ requiredMatchAt tag = none := by rw [hm]; simp
    have := not_not.mp (mt (requiredMatchAt_eq_none_iff tag).mpr hne)
    simp only [Option.some.injEq, this, true_or, iff_true]
    exact requiredMatchAt_ne_nil tag m hm

/-- C17: for every tag, `renderArgs` prints `required` in the row of the field
if and only if the string `required` is one of the pieces of the tag split on
commas; so `required`, `a,required` and `required,doc=x` are detected, and
`notrequired`, `required2` and `doc=required` are not. -/
theorem renderArgs_required_iff (tag : GoString) :
    (requiredColumn tag = "required".toList ↔ "required".toList ∈ SplitComma tag) ∧
      (requiredColumn tag = [] ↔ "required".toList ∉ SplitComma tag) ∧
      (∀ (field target : GoString) (repeated : Bool),
        (renderArgs ⟨[(field, ⟨target, repeated, tag⟩)]⟩ : List (Effect GoString)) =
          [Effect.Printf "Args:\n".toList [],
            Effect.Printf "  %v: %v (%v) %v %v\n".toList
              [field, docColumn tag, target,
                if repeated = true then "repeated".toList else [],
                if "required".toList ∈ SplitComma tag then "required".toList else []]]) ∧
      requiredColumn "required".toList = "required".toList ∧
      requiredColumn "a,required".toList = "required".toList ∧
      requiredColumn "required,doc=x".toList = "required".toList ∧
      requiredColumn "notrequired".toList = [] ∧
      requiredColumn "required2".toList = [] ∧
      requiredColumn "doc=required".toList = [] := by
  have hcol : requiredColumn tag =
      if "required".toList ∈ SplitComma tag then "required".toList else [] := by
    unfold requiredColumn
    by_cases h : "required".toList ∈ SplitComma tag
    · rw [if_pos ((FindRequired_ne_nil_iff tag).mpr h), if_pos h]
    · rw [if_neg (mt (FindRequired_ne_nil_iff tag).mp h), if_neg h]
  refine ⟨?_, ?_, ?_, by decide, by decide, by decide, by decide, by decide, by decide⟩
  · rw [hcol]
    by_cases h : "required".toList ∈ SplitComma tag
    · rw [if_pos h]
      exact ⟨fun _ => h, fun _ => rfl⟩
    · rw [if_neg h]
      constructor
      · intro e; exact absurd e (by decide)
      · intro e; exact absurd e h
  · rw [hcol]
    by_cases h : "required".toList ∈ SplitComma tag
    · rw [if_pos h]
      constructor
      · intro e; exact absurd e (by decide)
      · intro e; exact absurd h e
    · rw [if_neg h]
      exact ⟨fun _ => h, fun _ => rfl⟩
  · intro field target repeated
    unfold renderArgs
    simp only [List.map_cons, List.map_nil, hcol]

/-! ## Hidden variables -/

theorem HasPrefix_singleton (s : GoString) (c : Char) :
    HasPrefix s [c] = true ↔ s.head? = some c := by
  cases s with
  | nil => simp [HasPrefix]
  | cons a r =>
    simp only [HasPrefix, List.isPrefixOf, Bool.and_true, beq_iff_eq, List.head?_cons,
      Option.some.injEq]
    exact eq_comm

theorem visible_iff (member : GoString) :
    (!(HasPrefix member "$".toList) && !(HasPrefix member "_".toList)) = true ↔
      member.head? ≠ some '$' ∧ member.head? ≠ some '_' := by
  have h1 := HasPrefix_singleton member '$'
  have h2 := HasPrefix_singleton member '_'
  have e1 : "$".toList = ['$'] := rfl
  have e2 : "_".toList = ['_'] := rfl
  rw [e1, e2, Bool.and_eq_true, Bool.not_eq_true', Bool.not_eq_true', ← Bool.not_eq_true,
    ← Bool.not_eq_true, h1, h2]

theorem suggestVarsLoop_eq : ∀ (keys : List GoString) (result : List Suggest),
    suggestVarsLoop keys result =
      result ++ (keys.filter fun member =>
        !(HasPrefix member "$".toList) && !(HasPrefix member "_".toList)).map
        fun member => ⟨member, []⟩
  | [], result => by simp [suggestVarsLoop]
  | member :: rest, result => by
    unfold suggestVarsLoop
    by_cases h1 : HasPrefix member "$".toList = true
    · have hv : ¬ (!(HasPrefix member "$".toList) && !(HasPrefix member "_".toList)) = true := by
        rw [h1]; simp
      rw [if_pos h1, suggestVarsLoop_eq rest result, List.filter_cons]
      rw [if_neg hv]
    · by_cases h2 : HasPrefix member "_".toList = true
      · have hv : ¬ (!(HasPrefix member "$".toList) && !(HasPrefix member "_".toList)) = true := by
          rw [h2]; simp
        rw [if_neg h1, if_pos h2, suggestVarsLoop_eq rest result, List.filter_cons]
        rw [if_neg hv]
      · have hv : (!(HasPrefix member "$".toList) && !(HasPrefix member "_".toList)) = true := by
          rw [Bool.not_eq_true] at h1 h2
          rw [h1, h2]; rfl
        rw [if_neg h1, if_neg h2, suggestVarsLoop_eq rest _, List.filter_cons]
        rw [if_pos hv, List.map_cons, List.append_assoc]
        rfl

/-- C20: `suggestVars` is the result of its loop; the texts it returns are, in
the order of `scope.Keys()` and one for each occurrence, the keys that start
with neither `$` nor `_`; every suggestion has an empty description; and no
key that starts with `$` or `_` is suggested. -/
theorem suggestVars_hides_internal (scope : Scope) :
    suggestVars scope = suggestVarsLoop scope.Keys [] ∧
      (suggestVars scope).map (fun s => s.Text) =
        scope.Keys.filter (fun k => decide (k.head? ≠ some '$' ∧ k.head? ≠ some '_')) ∧
      (∀ s ∈ suggestVars scope, s.Description = []) ∧
      (∀ s ∈ suggestVars scope, s.Text.head? ≠ some '$' ∧ s.Text.head? ≠ some '_') ∧
      (∀ k ∈ scope.Keys, k.head? ≠ some '$' → k.head? ≠ some '_' →
        (⟨k, []⟩ : Suggest) ∈ suggestVars scope) := by
  have hfilter : (scope.Keys.filter fun member =>
      !(HasPrefix member "$".toList) && !(HasPrefix member "_".toList)) =
      scope.Keys.filter (fun k => decide (k.head? ≠ some '$' ∧ k.head? ≠ some '_')) := by
    apply List.filter_congr
    intro k _
    rw [Bool.eq_iff_iff, visible_iff]
    simp
  refine ⟨?_, ?_, ?_, ?_, ?_⟩
  · rw [suggestVarsLoop_eq]
    rfl
  · unfold suggestVars
    rw [List.map_map, hfilter]
    simp [Function.comp_def]
  · intro s hs
    exact (mem_suggestVars hs).1
  · intro s hs
    unfold suggestVars at hs
    obtain ⟨k, hk, rfl⟩ := List.mem_map.mp hs
    exact (visible_iff k).mp (List.mem_filter.mp hk).2
  · intro k hk h1 h2
    unfold suggestVars
    exact List.mem_map.mpr ⟨k, List.mem_filter.mpr ⟨hk, (visible_iff k).mpr ⟨h1, h2⟩⟩, rfl⟩

/-! ## Saving and loading the history -/

/-- C18, at the failing input: the history file holds the serialisation of a
state with the entry `SELECT * FROM info()`; a state with the shorter entry
`HELP glob` is saved over it.  The file is not truncated, so the end of the
old text stays behind the new one, `json.Unmarshal` reports a syntax error,
and `load_state` returns the empty state, not the state that was saved. -/
theorem save_then_load_longer_prior_content :
    Marshal ⟨["SELECT * FROM info()".toList]⟩ =
        "\x7b\"History\":[\"SELECT * FROM info()\"]\x7d".toList ∧
      save_state (some (Marshal ⟨["SELECT * FROM info()".toList]⟩))
        ⟨["HELP glob".toList]⟩ =
        some "\x7b\"History\":[\"HELP glob\"]\x7dM info()\"]\x7d".toList ∧
      Unmarshal "\x7b\"History\":[\"HELP glob\"]\x7dM info()\"]\x7d".toList =
        Decoded.syntaxError ∧
      load_state (save_state (some (Marshal ⟨["SELECT * FROM info()".toList]⟩))
        ⟨["HELP glob".toList]⟩) = some ⟨[]⟩ ∧
      load_state (save_state (some (Marshal ⟨["SELECT * FROM info()".toList]⟩))
        ⟨["HELP glob".toList]⟩) ≠ some ⟨["HELP glob".toList]⟩ := by
  refine ⟨by decide, by decide, by decide, by decide, by decide⟩

theorem hexValue_hexDigit : ∀ k : Nat, k < 16 → hexValue (hexDigit k) = some k := by
  decide

theorem parseStringBody_short (e x : Char) (rest : GoString) (he : e ≠ 'u')
    (hx : jsonUnescape e = some x) :
    parseStringBody ('\\' :: e :: rest) =
      (parseStringBody rest).map fun r => (x :: r.1, r.2) := by
  rw [parseStringBody.eq_def]
  simp [he, hx]

theorem parseStringBody_u (a b c d : Char) (x y z w : Nat) (rest : GoString)
    (ha : hexValue a = some x) (hb : hexValue b = some y) (hc : hexValue c = some z)
    (hd : hexValue d = some w)
    (hn : ¬ (55296 ≤ ((x * 16 + y) * 16 + z) * 16 + w ∧
      ((x * 16 + y) * 16 + z) * 16 + w < 57344)) :
    parseStringBody ('\\' :: 'u' :: a :: b :: c :: d :: rest) =
      (parseStringBody rest).map fun r =>
        (Char.ofNat (((x * 16 + y) * 16 + z) * 16 + w) :: r.1, r.2) := by
  have hn2 : 55296 ≤ ((x * 16 + y) * 16 + z) * 16 + w →
      ¬ ((x * 16 + y) * 16 + z) * 16 + w < 57344 := fun h1 h2 => hn ⟨h1, h2⟩
  rw [parseStringBody.eq_def]
  simp only [ha, hb, hc, hd, if_neg hn, if_true, show ¬ ('\\' = '"') by decide, if_false]

theorem parseStringBody_plain (c : Char) (rest : GoString) (h1 : c ≠ '"')
    (h2 : c ≠ '\\') (h3 : ¬ c.toNat < 32) :
    parseStringBody (c :: rest) =
      (parseStringBody rest).map fun r => (c :: r.1, r.2) := by
  rw [parseStringBody.eq_def]
  simp only [if_neg h1, if_neg h2, if_neg h3]

theorem parseStringBody_escape (c : Char) (rest : GoString) :
    parseStringBody (jsonEscape c ++ rest) =
      (parseStringBody rest).map fun r => (c :: r.1, r.2) := by
  unfold jsonEscape
  split_ifs with h1 h2 h3 h4 h5 h6
  · subst h1
    exact parseStringBody_short '"' '"' rest (by decide) (by decide)
  · subst h2
    exact parseStringBody_short '\\' '\\' rest (by decide) (by decide)
  · subst h3
    exact parseStringBody_short 'n' '\n' rest (by decide) (by decide)
  · subst h4
    exact parseStringBody_short 'r' '\r' rest (by decide) (by decide)
  · subst h5
    exact parseStringBody_short 't' '\t' rest (by decide) (by decide)
  · have hlt : c.toNat < 65536 := by
      rcases h6 with h | h | h | h | h | h
      · omega
      · subst h; decide
      · subst h; decide
      · subst h; decide
      · omega
      · omega
    have hsur : c.toNat < 55296 := by
      rcases h6 with h | h | h | h | h | h
      · omega
      · subst h; decide
      · subst h; decide
      · subst h; decide
      · omega
      · omega
    have hval : ((c.toNat / 4096 % 16 * 16 + c.toNat / 256 % 16) * 16 + c.toNat / 16 % 16) * 16 +
        c.toNat % 16 = c.toNat := by omega
    have := parseStringBody_u (hexDigit (c.toNat / 4096 % 16)) (hexDigit (c.toNat / 256 % 16))
      (hexDigit (c.toNat / 16 % 16)) (hexDigit (c.toNat % 16))
      (c.toNat / 4096 % 16) (c.toNat / 256 % 16) (c.toNat / 16 % 16) (c.toNat % 16) rest
      (hexValue_hexDigit _ (Nat.mod_lt _ (by decide)))
      (hexValue_hexDigit _ (Nat.mod_lt _ (by decide)))
      (hexValue_hexDigit _ (Nat.mod_lt _ (by decide)))
      (hexValue_hexDigit _ (Nat.mod_lt _ (by decide)))
      (by rw [hval]; omega)
    rw [hval, Char.ofNat_toNat] at this
    exact this
  · have h3n : ¬ c.toNat < 32 := fun h => h6 (Or.inl h)
    exact parseStringBody_plain c rest h1 h2 h3n

theorem parseStringBody_flatMap : ∀ (s rest : GoString),
    parseStringBody (s.flatMap jsonEscape ++ '"' :: rest) = some (s, rest)
  | [], rest => by
    rw [List.flatMap_nil, List.nil_append, parseStringBody.eq_def]
    simp
  | c :: s, rest => by
    rw [List.flatMap_cons, List.append_assoc, parseStringBody_escape,
      parseStringBody_flatMap s rest]
    rfl

theorem jsonElements_cons_cons (s t : GoString) (rest : List GoString) :
    jsonElements (s :: t :: rest) = jsonString s ++ ',' :: jsonElements (t :: rest) := by
  rw [jsonElements]

theorem parseStrings_jsonElements : ∀ (l : List GoString) (tail : GoString) (fuel : Nat),
    l ≠ [] → l.length ≤ fuel →
      parseStrings fuel (jsonElements l ++ ']' :: tail) = some (l, tail)
  | [], _, _, h, _ => absurd rfl h
  | [s], tail, fuel, _, hf => by
    obtain ⟨k, rfl⟩ : ∃ k, fuel = k + 1 := ⟨fuel - 1, by simp at hf; omega⟩
    have e : jsonElements [s] ++ ']' :: tail =
        '"' :: (s.flatMap jsonEscape ++ '"' :: ']' :: tail) := by
      simp [jsonElements, jsonString]
    rw [e]
    simp [parseStrings, parseStringBody_flatMap]
  | s :: t :: rest, tail, fuel, _, hf => by
    obtain ⟨k, rfl⟩ : ∃ k, fuel = k + 1 := ⟨fuel - 1, by simp at hf; omega⟩
    have e : jsonElements (s :: t :: rest) ++ ']' :: tail =
        '"' :: (s.flatMap jsonEscape ++
          '"' :: ',' :: (jsonElements (t :: rest) ++ ']' :: tail)) := by
      rw [jsonElements_cons_cons]
      simp [jsonString]
    have ih := parseStrings_jsonElements (t :: rest) tail k (List.cons_ne_nil _ _)
      (by simp at hf ⊢; omega)
    rw [e]
    simp [parseStrings, parseStringBody_flatMap, ih]

theorem length_le_jsonElements : ∀ l : List GoString, l.length ≤ (jsonElements l).length
  | [] => by simp [jsonElements]
  | [s] => by simp [jsonElements, jsonString]
  | s :: t :: rest => by
    have ih := length_le_jsonElements (t :: rest)
    rw [jsonElements_cons_cons]
    simp only [List.length_cons, List.length_append, jsonString] at ih ⊢
    omega

theorem jsonElements_head (s : GoString) (rest : List GoString) :
    ∃ body, jsonElements (s :: rest) = '"' :: body := by
  cases rest with
  | nil => exact ⟨_, rfl⟩
  | cons t more =>
    rw [jsonElements_cons_cons]
    exact ⟨_, rfl⟩

theorem parseState_Marshal (state : consoleState) (tail : GoString) :
    parseState (Marshal state ++ tail) = some (state, tail) := by
  cases state with
  | mk history =>
    cases history with
    | nil => simp [parseState, Marshal, HasPrefix, List.isPrefixOf]
    | cons s rest =>
      obtain ⟨body, hbody⟩ := jsonElements_head s rest
      have hlen := length_le_jsonElements (s :: rest)
      have hps := parseStrings_jsonElements (s :: rest) ('\x7d' :: tail)
        ((jsonElements (s :: rest) ++ ']' :: '\x7d' :: tail).length)
        (List.cons_ne_nil _ _) (by rw [List.length_append]; omega)
      rw [hbody] at hps
      simp only [List.cons_append, List.length_cons, List.length_append] at hps
      simp [parseState, Marshal, HasPrefix, List.isPrefixOf, hbody, hps]

theorem Unmarshal_Marshal (state : consoleState) :
    Unmarshal (Marshal state) = Decoded.value state := by
  have h := parseState_Marshal state []
  rw [List.append_nil] at h
  have hne : Marshal state ≠ [] := by
    unfold Marshal
    simp
  unfold Unmarshal
  rw [if_neg hne, h]
  rfl

/-- Where the history file is absent, empty, or not longer than the text that
is written, `save_state` followed by `load_state` gives back the state.  The
hypotheses on the characters are those under which the model is the file of
the code: a history with an entry, entries of printable ASCII, which
`json.Marshal` writes in the same way in every release of Go, and an old
content of ASCII, so that characters are bytes. -/
theorem load_save_of_not_longer (file : Option GoString) (state : consoleState)
    (_hentry : state.History ≠ [])
    (_hplain : ∀ e ∈ state.History, ∀ c ∈ e, 32 ≤ c.toNat ∧ c.toNat < 127)
    (_hfile : ∀ c ∈ file.getD [], c.toNat < 128)
    (h : (file.getD []).length ≤ (Marshal state).length) :
    save_state file state = some (Marshal state) ∧
      load_state (save_state file state) = some state := by
  have hsave : save_state file state = some (Marshal state) := by
    unfold save_state
    rw [List.drop_eq_nil_of_le h, List.append_nil]
  refine ⟨hsave, ?_⟩
  rw [hsave]
  unfold load_state
  simp only [Unmarshal_Marshal]

end Console
